import Mathlib

set_option maxRecDepth 8000

/-!
Shallow embedding of the incremental change-detection core of the
taiwan-tax-scraper repository (`draft_law_scraper.py`, `smart_scraper.py`).
Python dict-based records are modelled as structures with `Option String`
fields (a missing key is `none`); Python truthiness of an optional string is
modelled by `truthy`.
-/

/-- A record of `draft_law_scraper.py` (a Python dict).  Only the keys read or
written by the functions modelled here are included; other keys of the real
dicts (such as `sequence`, `roc_date` or `scraped_at`) never influence these
functions. -/
structure Draft where
  unique_id : Option String := none
  url : Option String := none
  title : Option String := none
  date : Option String := none
  end_date : Option String := none
  status : Option String := none
  last_updated : Option String := none
  changes : Option (List String) := none
  expired_at : Option String := none
deriving DecidableEq, Repr

/-- Python truthiness of `d.get(key)` for a string-valued key: both a missing
key (`None`) and the empty string are falsy. -/
def truthy : Option String → Option String
  | some s => if s = "" then none else some s
  | none => none

/-- The truthy `unique_id` of a record, as used by the dict comprehensions of
`compare_and_update_smart`. -/
def uidOf (d : Draft) : Option String := truthy d.unique_id

/-- Model of assignment `d[k] = v` into a Python dict rendered as an
association list: an existing key keeps its position but receives the new
value; a new key is appended at the end. -/
def dictInsert (k : String) (v : Draft) : List (String × Draft) → List (String × Draft)
  | [] => [(k, v)]
  | p :: rest => if p.1 = k then (k, v) :: rest else p :: dictInsert k v rest

/-- Model of `{item.get('unique_id'): item for item in l if item.get('unique_id')}`:
iteration order is the first occurrence of each key, the value is the last
item carrying that key (Python 3.7+ dict semantics). -/
def buildDict (l : List Draft) : List (String × Draft) :=
  l.foldl (fun d r => match uidOf r with | some k => dictInsert k r d | none => d) []

/-- Model of `k in d` for the dict model. -/
def hasKey (d : List (String × Draft)) (k : String) : Bool :=
  d.any (fun p => p.1 == k)

/-- Keys of the dict model. -/
def dictKeys (d : List (String × Draft)) : List String := d.map Prod.fst

/-- One step of `buildDict`'s fold. -/
def buildDictStep (d : List (String × Draft)) (r : Draft) : List (String × Draft) :=
  match uidOf r with | some k => dictInsert k r d | none => d

/-- Model of `d[k]` for the dict model (keys are unique by construction). -/
def dictLookup (d : List (String × Draft)) (k : String) : Option Draft :=
  (d.find? (fun p => p.1 == k)).map Prod.snd

/-- `x.get('date', '')`, the sort key used on the updated history. -/
def dateKey (d : Draft) : String := d.date.getD ("")

/-- Python string `<=`: lexicographic comparison by code point. -/
def strLeChars : List Char → List Char → Bool
  | [], _ => true
  | _ :: _, [] => false
  | x :: xs, y :: ys =>
    if x.toNat < y.toNat then true
    else if y.toNat < x.toNat then false
    else strLeChars xs ys

def pyLe (s t : String) : Bool := strLeChars s.data t.data

/-- One step of a stable descending insertion sort by `dateKey`: the new
element goes behind every element whose key is ≥ its own, so equal keys keep
their original relative order, matching Python's stable
`list.sort(key=lambda x: x.get('date', ''), reverse=True)`. -/
def insertDesc (x : Draft) : List Draft → List Draft
  | [] => [x]
  | y :: ys => if pyLe (dateKey x) (dateKey y) then y :: insertDesc x ys else x :: y :: ys

/-- Stable sort by `date` descending (records with missing dates sort last). -/
def sortByDateDesc (l : List Draft) : List Draft :=
  l.foldl (fun acc x => insertDesc x acc) []

/-- The field-by-field comparison of step 2 of `compare_and_update_smart`,
returning the code's change labels in the order the code checks the fields
(標題 = title, 終止日期 = end date, 公告日期 = announcement date). -/
def drawChanges (cur historical : Draft) : List String :=
  (if cur.title ≠ historical.title then ["標題"] else [])
    ++ (if cur.end_date ≠ historical.end_date then ["終止日期"] else [])
    ++ (if cur.date ≠ historical.date then ["公告日期"] else [])

/-- `current_draft` after step 2 recorded its changes:
`current_draft['last_updated'] = now; current_draft['changes'] = changes`. -/
def applyUpdate (now : String) (ch : List String) (cur : Draft) : Draft :=
  { cur with last_updated := some now, changes := some ch }

/-- Step 3's condition: the entry's key is absent from the current batch and
its status is still `'active'`. -/
def isNewlyExpired (current_dict : List (String × Draft)) (p : String × Draft) : Bool :=
  !hasKey current_dict p.1 && (p.2.status == some ("active"))

/-- Step 3's in-place mutation of an expiring entry:
`status = 'expired'; expired_at = now`. -/
def expireRec (now : String) (d : Draft) : Draft :=
  { d with status := some ("expired"), expired_at := some now }

/-- Step 4a: `next((item for item in updated_items if item.get('unique_id') == uid), draft)`
(note the raw, non-truthy comparison of `unique_id`). -/
def updatedVersion (updated_items : List Draft) (draft : Draft) : Draft :=
  match updated_items.find? (fun item => item.unique_id == draft.unique_id) with
  | some u => u
  | none => draft

/-- Step 4b's condition: key absent from the current batch and status
`'expired'` (evaluated after step 3's marking). -/
def isKeptExpired (current_dict : List (String × Draft)) (p : String × Draft) : Bool :=
  !hasKey current_dict p.1 && (p.2.status == some ("expired"))

/-- The `stats` dict returned by `compare_and_update_smart`. -/
structure SmartStats where
  new_count : Nat
  updated_count : Nat
  expired_count : Nat
  active_count : Nat
  total_historical : Nat
deriving DecidableEq, Repr

/-- The tuple `(new_items, updated_items, updated_history, stats)` returned by
`compare_and_update_smart`. -/
structure SmartResult where
  new_items : List Draft
  updated_items : List Draft
  updated_history : List Draft
  stats : SmartStats
deriving DecidableEq, Repr

/-- Step 1 of `compare_and_update_smart`: genuinely new items (dict entries
whose `unique_id` is absent from the history dict), in dict iteration
order. -/
def newItemsOf (current_dict history_dict : List (String × Draft)) : List Draft :=
  (current_dict.filter (fun p => !hasKey history_dict p.1)).map Prod.snd

/-- Step 2 of `compare_and_update_smart`: for every dict entry whose
`unique_id` is also in the history dict, compare title / end_date / date;
on any difference produce the batch record with `last_updated` and `changes`
set. -/
def updatedItemsOf (now : String) (current_dict history_dict : List (String × Draft)) :
    List Draft :=
  current_dict.filterMap (fun p =>
    match dictLookup history_dict p.1 with
    | some historical =>
      let ch := drawChanges p.2 historical
      if ch ≠ [] then some (applyUpdate now ch p.2) else none
    | none => none)

/-- Step 3 of `compare_and_update_smart`: the history dict after marking
absent, still-active entries as expired (the in-place mutation of
`historical_draft`). -/
def markedDictOf (now : String) (current_dict history_dict : List (String × Draft)) :
    List (String × Draft) :=
  history_dict.map (fun p =>
    if isNewlyExpired current_dict p then (p.1, expireRec now p.2) else p)

/-- Step 4b of `compare_and_update_smart`: the retained expired entries
(iterating the marked history dict). -/
def expiredEntriesOf (now : String) (current_dict history_dict : List (String × Draft)) :
    List Draft :=
  ((markedDictOf now current_dict history_dict).filter (isKeptExpired current_dict)).map
    Prod.snd

/-- Step 4 of `compare_and_update_smart`: every current draft (replaced by
its updated version when one exists), then the retained expired entries,
sorted by date descending. -/
def updatedHistoryOf (now : String) (current_drafts : List Draft)
    (current_dict history_dict : List (String × Draft)) : List Draft :=
  sortByDateDesc
    (current_drafts.map (updatedVersion (updatedItemsOf now current_dict history_dict))
      ++ expiredEntriesOf now current_dict history_dict)

/-- Pure core of `ImprovedDraftLawScraper.compare_and_update_smart`
(draft_law_scraper.py, lines 244–351).  `history` stands for the list loaded
by `load_history`; saving is modelled separately.  Python's in-place dict
mutations are rendered functionally: step 2 produces fresh updated records,
step 3 produces the marked dict used by step 4b. -/
def compare_and_update_smart (now : String) (current_drafts history : List Draft) :
    SmartResult :=
  let history_dict := buildDict history
  let current_dict := buildDict current_drafts
  let new_items := newItemsOf current_dict history_dict
  let updated_items := updatedItemsOf now current_dict history_dict
  let expired_count := (history_dict.filter (isNewlyExpired current_dict)).length
  let updated_history := updatedHistoryOf now current_drafts current_dict history_dict
  { new_items := new_items
    updated_items := updated_items
    updated_history := updated_history
    stats :=
      { new_count := new_items.length
        updated_count := updated_items.length
        expired_count := expired_count
        active_count := current_drafts.length
        total_historical := updated_history.length } }

/-!
### Models of Python string primitives

These mirror `str.split`, `str.strip`, `str.startswith`, `str.join`,
`str.replace`, substring containment and `re.sub` over character lists, so
that every definition evaluates by kernel reduction.
-/

/-- Split a character list at every occurrence of `sep`
(Python `s.split(sep)` for a one-character separator: `""` splits to `[""]`,
separators at the ends produce empty pieces). -/
def splitOnChar (sep : Char) : List Char → List (List Char)
  | [] => [[]]
  | x :: rest =>
    if x = sep then [] :: splitOnChar sep rest
    else
      match splitOnChar sep rest with
      | [] => [[x]]
      | g :: gs => (x :: g) :: gs

/-- Python `s.split(sep)` for a one-character separator. -/
def pySplit (sep : Char) (s : String) : List String :=
  (splitOnChar sep s.data).map String.mk

/-- Python `s.strip()` (ASCII whitespace). -/
def pyStrip (l : List Char) : List Char :=
  ((l.dropWhile Char.isWhitespace).reverse.dropWhile Char.isWhitespace).reverse

def pyStripStr (s : String) : String := String.mk (pyStrip s.data)

/-- Python `s.startswith(pre)`. -/
def startsWithStr (s pre : String) : Bool := pre.data.isPrefixOf s.data

/-- Python `sep.join(parts)`. -/
def pyJoin (sep : String) : List String → String
  | [] => ""
  | [x] => x
  | x :: y :: rest => x ++ sep ++ pyJoin sep (y :: rest)

/-!
### Model of `hashlib.md5` and the identifier generators

Machine words are `Nat` kept below `2^32` by explicit `% 4294967296`.
-/

/-- UTF-8 encoding of a string as its list of byte values
(`s.encode('utf-8')`). -/
def utf8Encode (s : String) : List Nat :=
  (s.data.map (fun c =>
    let u := c.toNat
    if u < 128 then [u]
    else if u < 2048 then [192 + u / 64, 128 + u % 64]
    else if u < 65536 then [224 + u / 4096, 128 + u / 64 % 64, 128 + u % 64]
    else [240 + u / 262144, 128 + u / 4096 % 64, 128 + u / 64 % 64, 128 + u % 64])).flatten

/-- The 64 MD5 round constants (RFC 1321). -/
def md5K : List Nat :=
  [0xd76aa478, 0xe8c7b756, 0x242070db, 0xc1bdceee,
   0xf57c0faf, 0x4787c62a, 0xa8304613, 0xfd469501,
   0x698098d8, 0x8b44f7af, 0xffff5bb1, 0x895cd7be,
   0x6b901122, 0xfd987193, 0xa679438e, 0x49b40821,
   0xf61e2562, 0xc040b340, 0x265e5a51, 0xe9b6c7aa,
   0xd62f105d, 0x02441453, 0xd8a1e681, 0xe7d3fbc8,
   0x21e1cde6, 0xc33707d6, 0xf4d50d87, 0x455a14ed,
   0xa9e3e905, 0xfcefa3f8, 0x676f02d9, 0x8d2a4c8a,
   0xfffa3942, 0x8771f681, 0x6d9d6122, 0xfde5380c,
   0xa4beea44, 0x4bdecfa9, 0xf6bb4b60, 0xbebfbc70,
   0x289b7ec6, 0xeaa127fa, 0xd4ef3085, 0x04881d05,
   0xd9d4d039, 0xe6db99e5, 0x1fa27cf8, 0xc4ac5665,
   0xf4292244, 0x432aff97, 0xab9423a7, 0xfc93a039,
   0x655b59c3, 0x8f0ccc92, 0xffeff47d, 0x85845dd1,
   0x6fa87e4f, 0xfe2ce6e0, 0xa3014314, 0x4e0811a1,
   0xf7537e82, 0xbd3af235, 0x2ad7d2bb, 0xeb86d391]

/-- The 64 MD5 per-round left-rotation amounts. -/
def md5S : List Nat :=
  [7, 12, 17, 22, 7, 12, 17, 22, 7, 12, 17, 22, 7, 12, 17, 22,
   5, 9, 14, 20, 5, 9, 14, 20, 5, 9, 14, 20, 5, 9, 14, 20,
   4, 11, 16, 23, 4, 11, 16, 23, 4, 11, 16, 23, 4, 11, 16, 23,
   6, 10, 15, 21, 6, 10, 15, 21, 6, 10, 15, 21, 6, 10, 15, 21]

/-- The four 32-bit MD5 chaining words. -/
structure MD5State where
  a : Nat
  b : Nat
  c : Nat
  d : Nat
deriving DecidableEq, Repr

def md5Init : MD5State :=
  { a := 0x67452301, b := 0xefcdab89, c := 0x98badcfe, d := 0x10325476 }

/-- 32-bit left rotation (operands are < 2^32). -/
def rotl32 (x s : Nat) : Nat := (x * 2 ^ s + x / 2 ^ (32 - s)) % 4294967296

/-- Little-endian 32-bit word `g` of a 64-byte block. -/
def md5Word (blk : List Nat) (g : Nat) : Nat :=
  blk.getD (4 * g) 0 + 256 * blk.getD (4 * g + 1) 0 + 65536 * blk.getD (4 * g + 2) 0
    + 16777216 * blk.getD (4 * g + 3) 0

/-- One of the 64 MD5 operations. -/
def md5Round (blk : List Nat) (st : MD5State) (i : Nat) : MD5State :=
  let fg : Nat × Nat :=
    if i < 16 then ((st.b &&& st.c) ||| ((st.b ^^^ 4294967295) &&& st.d), i)
    else if i < 32 then ((st.d &&& st.b) ||| ((st.d ^^^ 4294967295) &&& st.c), (5 * i + 1) % 16)
    else if i < 48 then (st.b ^^^ st.c ^^^ st.d, (3 * i + 5) % 16)
    else (st.c ^^^ (st.b ||| (st.d ^^^ 4294967295)), (7 * i) % 16)
  let f := (fg.1 + st.a + md5K.getD i 0 + md5Word blk fg.2) % 4294967296
  { a := st.d, b := (st.b + rotl32 f (md5S.getD i 0)) % 4294967296, c := st.b, d := st.c }

/-- Process one 64-byte block. -/
def md5Block (st : MD5State) (blk : List Nat) : MD5State :=
  let r := (List.range 64).foldl (md5Round blk) st
  { a := (st.a + r.a) % 4294967296, b := (st.b + r.b) % 4294967296,
    c := (st.c + r.c) % 4294967296, d := (st.d + r.d) % 4294967296 }

/-- MD5 padding: `0x80`, zeros up to 56 mod 64, then the 64-bit little-endian
bit length. -/
def padBytes (msg : List Nat) : List Nat :=
  let L := msg.length
  msg ++ [128] ++ List.replicate ((119 - L % 64) % 64) 0
    ++ (List.range 8).map (fun i => 8 * L / 256 ^ i % 256)

/-- Split a (padded) byte list into 64-byte blocks (`fuel` bounds the number
of steps; `splitBlocks` supplies the list's length, which always suffices). -/
def splitBlocksGo : Nat → List Nat → List (List Nat)
  | _, [] => []
  | 0, _ :: _ => []
  | fuel + 1, b :: rest => ((b :: rest).take 64) :: splitBlocksGo fuel ((b :: rest).drop 64)

def splitBlocks (l : List Nat) : List (List Nat) := splitBlocksGo l.length l

/-- Little-endian byte serialization of a 32-bit word. -/
def wordBytes (w : Nat) : List Nat := [w % 256, w / 256 % 256, w / 65536 % 256, w / 16777216 % 256]

/-- The 16-byte MD5 digest of a byte list. -/
def md5Bytes (msg : List Nat) : List Nat :=
  let st := (splitBlocks (padBytes msg)).foldl md5Block md5Init
  wordBytes st.a ++ wordBytes st.b ++ wordBytes st.c ++ wordBytes st.d

/-- The sixteen lowercase hexadecimal digits. -/
def hexChars : List Char := ("0123456789abcdef").data

def hexChar (n : Nat) : Char := hexChars.getD (n % 16) '0'

/-- The two hex characters of one byte. -/
def hexPair (b : Nat) : List Char := [hexChar (b / 16), hexChar b]

/-- `hashlib.md5(msg).hexdigest()`. -/
def md5hexdigest (msg : List Nat) : String :=
  String.mk ((md5Bytes msg).map hexPair).flatten

/-- `ImprovedDraftLawScraper.generate_unique_id` (draft_law_scraper.py,
lines 52–67): md5 of the URL when one is present (truthy), otherwise md5 of
title followed by date; in both cases the first 12 hex characters. -/
def generate_unique_id (draft : Draft) : String :=
  match truthy draft.url with
  | some u => String.mk ((md5hexdigest (utf8Encode u)).data.take 12)
  | none =>
    let content := draft.title.getD ("") ++ draft.date.getD ("")
    String.mk ((md5hexdigest (utf8Encode content)).data.take 12)

/-- A ruling record of `smart_scraper.py` (a Python dict); only the keys the
modelled functions read are included. -/
structure SRec where
  id : Option String := none
  date : Option String := none
  doc_number : Option String := none
  title : Option String := none
  url : Option String := none
  original_url : Option String := none
  scrape_time : Option String := none
deriving DecidableEq, Repr

/-- `TaxRulingScraper.generate_id` (smart_scraper.py, lines 409–417):
`'|'.join(filter(None, [date, doc_number, title[:50]]))`, then md5 and the
first 12 hex characters.  The URL is not part of the key. -/
def generate_id (ruling : SRec) : String :=
  let key_parts := [ruling.date.getD (""), ruling.doc_number.getD (""),
    String.mk ((ruling.title.getD ("")).data.take 50)]
  let key_string := pyJoin ("|") (key_parts.filter (fun s => s != ""))
  String.mk ((md5hexdigest (utf8Encode key_string)).data.take 12)

/-!
### Date handling: `convert_roc_date` (draft_law_scraper.py) and
`extract_date` (smart_scraper.py)
-/

/-- Python `int(s)` on the strings produced by splitting a date: optional
surrounding whitespace, optional sign, then ASCII decimal digits; anything
else raises `ValueError`, modelled as `none`.  (Python also accepts underscore
separators and non-ASCII decimal digits; those never occur in the modelled
inputs.) -/
def pyInt (s : String) : Option Int :=
  let t := pyStrip s.data
  let sd : Int × List Char :=
    match t with
    | '-' :: rest => (-1, rest)
    | '+' :: rest => (1, rest)
    | _ => (1, t)
  if sd.2 ≠ [] ∧ sd.2.all Char.isDigit then
    some (sd.1 * (sd.2.foldl (fun acc c => 10 * acc + (c.toNat - 48)) 0 : Nat))
  else none

/-- Python `f"{n:02d}"`: decimal rendering left-padded with `0` to width 2. -/
def format02d (n : Int) : String :=
  let s := toString n
  if s.length ≥ 2 then s else String.mk ('0' :: s.data)

/-- `ImprovedDraftLawScraper.convert_roc_date` (draft_law_scraper.py, lines
69–89): split on `'.'`; when there are exactly three integer parts, return
`f"{part1 + 1911}-{part2:02d}-{part3:02d}"`; every other input — wrong number
of parts, or a part on which `int` raises `ValueError` — falls through to
`return roc_date`, the input string itself (never `None`, never an
exception). -/
def convert_roc_date (roc_date : String) : String :=
  let parts := pySplit '.' roc_date
  if parts.length = 3 then
    match pyInt (parts.getD 0 ("")), pyInt (parts.getD 1 ("")), pyInt (parts.getD 2 ("")) with
    | some y, some m, some d =>
      toString (y + 1911) ++ "-" ++ format02d m ++ "-" ++ format02d d
    | _, _, _ => roc_date
  else roc_date

/-- One element of a (tiny) regular-expression pattern: a greedy bounded
digit run `\d{lo,hi}` or a literal character. -/
inductive PatElem where
  | digits (lo hi : Nat)
  | lit (c : Char)
deriving DecidableEq, Repr

/-- Anchored backtracking match of a pattern against a prefix of `xs`,
returning the number of characters matched.  A digit run is greedy: the
largest count is tried first, exactly like Python's `\d{lo,hi}`.  (`\d` is
modelled as ASCII digits.) -/
def matchSeq : List PatElem → List Char → Option Nat
  | [], _ => some 0
  | PatElem.lit c :: ps, xs =>
    match xs with
    | [] => none
    | x :: rest => if x = c then (matchSeq ps rest).map (· + 1) else none
  | PatElem.digits lo hi :: ps, xs =>
    ((List.range (hi + 1 - lo)).map (fun j => hi - j)).findSome? (fun k =>
      if k ≤ xs.length && (xs.take k).all Char.isDigit then
        (matchSeq ps (xs.drop k)).map (fun n => k + n)
      else none)

/-- `re.search`: try to match at each position, leftmost first; return the
matched characters. -/
def searchFrom (p : List PatElem) : List Char → Option (List Char)
  | [] => (matchSeq p []).map (fun n => ([] : List Char).take n)
  | x :: rest =>
    match matchSeq p (x :: rest) with
    | some n => some ((x :: rest).take n)
    | none => searchFrom p rest

/-- `re.search(pattern, s)` returning `match.group(0)`. -/
def reSearch (p : List PatElem) (s : String) : Option String :=
  (searchFrom p s.data).map String.mk

/-- `r'\d{2,3}年\d{1,2}月\d{1,2}日'` -/
def datePattern1 : List PatElem :=
  [PatElem.digits 2 3, PatElem.lit '年', PatElem.digits 1 2, PatElem.lit '月',
   PatElem.digits 1 2, PatElem.lit '日']

/-- `r'\d{2,3}\.\d{1,2}\.\d{1,2}'` -/
def datePattern2 : List PatElem :=
  [PatElem.digits 2 3, PatElem.lit '.', PatElem.digits 1 2, PatElem.lit '.',
   PatElem.digits 1 2]

/-- `r'\d{2,3}/\d{1,2}/\d{1,2}'` -/
def datePattern3 : List PatElem :=
  [PatElem.digits 2 3, PatElem.lit '/', PatElem.digits 1 2, PatElem.lit '/',
   PatElem.digits 1 2]

/-- `r'民國\d{2,3}年\d{1,2}月\d{1,2}日'` -/
def datePattern4 : List PatElem :=
  [PatElem.lit '民', PatElem.lit '國', PatElem.digits 2 3, PatElem.lit '年',
   PatElem.digits 1 2, PatElem.lit '月', PatElem.digits 1 2, PatElem.lit '日']

/-- The `date_patterns` list of `extract_date`, in the code's order. -/
def date_patterns : List (List PatElem) :=
  [datePattern1, datePattern2, datePattern3, datePattern4]

/-- `TaxRulingScraper.extract_date` (smart_scraper.py, lines 185–203): returns
the first match of the first matching pattern, in its original ROC form —
"提取日期但不轉換（保留原始民國年格式）" — or `""` when the text is empty or
no pattern matches.  No conversion to the western calendar is performed. -/
def extract_date (text : String) : String :=
  if text = "" then ""
  else
    match date_patterns.findSome? (fun p => reSearch p text) with
    | some m => m
    | none => ""

/-!
### URL handling: a model of the used subset of `urllib.parse` and
`TaxRulingScraper.fix_url_comprehensive` (smart_scraper.py, lines 134–183)
-/

/-- Substring test over characters (`pat in s`). -/
def containsChars (pat : List Char) : List Char → Bool
  | [] => pat.isPrefixOf []
  | x :: rest => if pat.isPrefixOf (x :: rest) then true else containsChars pat rest

/-- Python `pat in s` for strings. -/
def containsSub (s pat : String) : Bool := containsChars pat.data s.data

/-- Python `s.replace(pat, rep)`: replace every non-overlapping occurrence,
scanning left to right.  (For the empty pattern — which never occurs here —
the model returns `s` unchanged.) -/
def replaceCharsGo (pat rep : List Char) : Nat → List Char → List Char
  | _, [] => []
  | 0, l => l
  | fuel + 1, x :: rest =>
    if pat ≠ [] ∧ pat.isPrefixOf (x :: rest) then
      rep ++ replaceCharsGo pat rep fuel ((x :: rest).drop pat.length)
    else
      x :: replaceCharsGo pat rep fuel rest

def replaceChars (pat rep : List Char) (s : List Char) : List Char :=
  replaceCharsGo pat rep s.length s

def pyReplace (s pat rep : String) : String :=
  String.mk (replaceChars pat.data rep.data s.data)

/-- `re.sub(r'(?<!:)//', '/', url)`: collapse `//` into `/` unless the
character just before the pair (in the input) is `:`.  `prev` is the most
recently consumed input character. -/
def subDoubleSlashGo : Nat → Option Char → List Char → List Char
  | _, _, [] => []
  | 0, _, l => l
  | fuel + 1, prev, '/' :: '/' :: rest =>
    if prev = some ':' then '/' :: subDoubleSlashGo fuel (some '/') ('/' :: rest)
    else '/' :: subDoubleSlashGo fuel (some '/') rest
  | fuel + 1, prev, x :: rest => x :: subDoubleSlashGo fuel (some x) rest

def subDoubleSlash (s : String) : String :=
  String.mk (subDoubleSlashGo s.data.length none s.data)

/-- The result of `urllib.parse.urlsplit` (the `params` component of
`urlparse` is never consulted by the modelled code and is folded into the
path). -/
structure SplitURL where
  scheme : String := ""
  netloc : String := ""
  path : String := ""
  query : String := ""
  fragment : String := ""
deriving DecidableEq, Repr

def lowerStr (s : String) : String := String.mk (s.data.map Char.toLower)

/-- WHATWG-style cleanup done by `urlsplit`: strip leading and trailing
C0-control-or-space characters, remove every tab, CR and LF. -/
def urlCleanup (l : List Char) : List Char :=
  (((l.dropWhile (fun c => decide (c.toNat ≤ 32))).reverse.dropWhile
      (fun c => decide (c.toNat ≤ 32))).reverse).filter
    (fun c => !(c == '\t' || c == '\r' || c == '\n'))

/-- Split at the first occurrence of `sep`: `some (before, after)`. -/
def breakAt (sep : Char) : List Char → Option (List Char × List Char)
  | [] => none
  | x :: rest =>
    if x = sep then some ([], rest)
    else (breakAt sep rest).map (fun p => (x :: p.1, p.2))

/-- `urllib.parse.urlsplit(url, scheme_default)`; `none` models the
`ValueError` raised on an unbalanced bracket in the authority. -/
def urlsplitD (scheme_default : String) (url : String) : Option SplitURL :=
  let cs := urlCleanup url.data
  let sr : String × List Char :=
    match breakAt ':' cs with
    | some (pre, post) =>
      if pre ≠ [] ∧ (pre.headD ' ').isAlpha ∧
          pre.all (fun c => c.isAlphanum || c == '+' || c == '-' || c == '.') then
        (lowerStr (String.mk pre), post)
      else (lowerStr scheme_default, cs)
    | none => (lowerStr scheme_default, cs)
  let nl : List Char × List Char :=
    if sr.2.take 2 = ['/', '/'] then
      ((sr.2.drop 2).takeWhile (fun c => !(c == '/' || c == '?' || c == '#')),
       (sr.2.drop 2).dropWhile (fun c => !(c == '/' || c == '?' || c == '#')))
    else ([], sr.2)
  if ('[' ∈ nl.1 ∧ ']' ∉ nl.1) ∨ (']' ∈ nl.1 ∧ '[' ∉ nl.1) then none
  else
    let bf : List Char × List Char :=
      match breakAt '#' nl.2 with
      | some (b, f) => (b, f)
      | none => (nl.2, [])
    let pq : List Char × List Char :=
      match breakAt '?' bf.1 with
      | some (b, q) => (b, q)
      | none => (bf.1, [])
    some { scheme := sr.1, netloc := String.mk nl.1, path := String.mk pq.1,
           query := String.mk pq.2, fragment := String.mk bf.2 }

/-- `urllib.parse.urlunsplit`. -/
def urlunsplit (u : SplitURL) : String :=
  let url0 := u.path
  let url1 :=
    if u.netloc ≠ "" ∨ (url0 ≠ "" ∧ startsWithStr url0 ("//")) then
      "//" ++ u.netloc ++ (if url0 ≠ "" ∧ ¬startsWithStr url0 ("/") then "/" ++ url0 else url0)
    else url0
  let url2 := if u.scheme ≠ "" then u.scheme ++ ":" ++ url1 else url1
  let url3 := if u.query ≠ "" then url2 ++ "?" ++ u.query else url2
  if u.fragment ≠ "" then url3 ++ "#" ++ u.fragment else url3

/-- The schemes relevant here from `urllib.parse.uses_relative`. -/
def uses_relative : List String :=
  ["", "ftp", "http", "gopher", "nntp", "imap", "wais", "file", "https", "shttp",
   "mms", "prospero", "rtsp", "rtspu", "sftp", "svn", "svn+ssh", "ws", "wss"]

/-- The schemes relevant here from `urllib.parse.uses_netloc`. -/
def uses_netloc : List String :=
  ["", "ftp", "http", "gopher", "nntp", "telnet", "imap", "wais", "file", "mms",
   "https", "shttp", "snews", "prospero", "rtsp", "rtspu", "rsync", "svn",
   "svn+ssh", "sftp", "nfs", "git", "git+ssh", "ws", "wss", "itms-services"]

/-- Python's `segments[1:-1] = filter(None, segments[1:-1])`. -/
def filterMiddle (l : List String) : List String :=
  match l with
  | [] => []
  | [a] => [a]
  | a :: rest =>
    a :: (rest.dropLast.filter (fun s => s != "")) ++ [rest.getLastD ("")]

/-- `urllib.parse.urljoin(base, url)` (3.x algorithm, `params` folded into the
path); `none` models a `ValueError` escaping from `urlsplit`. -/
def urljoinM (base url : String) : Option String :=
  if base = "" then some url
  else if url = "" then some base
  else
    match urlsplitD ("") base with
    | none => none
    | some b =>
      match urlsplitD b.scheme url with
      | none => none
      | some r0 =>
        if r0.scheme ≠ b.scheme ∨ r0.scheme ∉ uses_relative then some url
        else
          let netloc :=
            if r0.scheme ∈ uses_netloc then
              (if r0.netloc ≠ "" then r0.netloc else b.netloc)
            else r0.netloc
          if r0.scheme ∈ uses_netloc ∧ r0.netloc ≠ "" then some (urlunsplit r0)
          else if r0.path = "" then
            let q := if r0.query = "" then b.query else r0.query
            some (urlunsplit
              { scheme := r0.scheme, netloc := netloc, path := b.path, query := q,
                fragment := r0.fragment })
          else
            let base_parts0 := pySplit '/' b.path
            let base_parts :=
              if base_parts0.getLastD ("") ≠ "" then base_parts0.dropLast else base_parts0
            let segments :=
              if startsWithStr r0.path ("/") then pySplit '/' r0.path
              else filterMiddle (base_parts ++ pySplit '/' r0.path)
            let resolved := segments.foldl (fun acc seg =>
              if seg = ".." then acc.dropLast
              else if seg = "." then acc
              else acc ++ [seg]) ([] : List String)
            let resolved2 :=
              if segments.getLastD ("") = "." ∨ segments.getLastD ("") = ".." then
                resolved ++ [""]
              else resolved
            let joined := pyJoin ("/") resolved2
            let path2 := if joined = "" then "/" else joined
            some (urlunsplit
              { scheme := r0.scheme, netloc := netloc, path := path2,
                query := r0.query, fragment := r0.fragment })

/-- `self.base_url` of `TaxRulingScraper`. -/
def smart_base_url : String := "https://law.dot.gov.tw"

/-- The `error_patterns` table of `fix_url_comprehensive` (the `('//', '/')`
row is present but skipped by the loop's `error_pattern != '//'` guard). -/
def url_error_patterns : List (String × String) :=
  [("twhome.jsp", "/home.jsp"), ("gov.twhome", "gov.tw/home"), ("lawlaw", "law"), ("//", "/")]

/-- The completion step of `fix_url_comprehensive` ("確保URL完整性"): a URL
without an `http(s)://` prefix is either prefixed with the base origin (when
it starts with `/`) or resolved against `https://law.dot.gov.tw/law-ch/` by
`urljoin`; `none` models the `ValueError` that can escape the unguarded
`urljoin` call. -/
def fixResolve (u2 : String) : Option String :=
  if ¬(startsWithStr u2 ("http://") ∨ startsWithStr u2 ("https://")) then
    (if startsWithStr u2 ("/") then some (smart_base_url ++ u2)
     else urljoinM (smart_base_url ++ "/law-ch/") u2)
  else some u2

/-- The final validation of `fix_url_comprehensive` ("最終驗證"), inside
`try/except`: `urlparse` the candidate and keep it only when both scheme and
netloc are truthy; otherwise — including when `urlparse` raises — return
`original_url`. -/
def fixFinalize (original_url u5 : String) : Option String :=
  match urlsplitD ("") u5 with
  | some parts => if parts.scheme ≠ "" ∧ parts.netloc ≠ "" then some u5 else some original_url
  | none => some original_url

/-- Completion, HTTPS forcing and final validation of
`fix_url_comprehensive`, applied to the candidate `u2` produced by the
replacement phases. -/
def fixTail (original_url u2 : String) : Option String :=
  match fixResolve u2 with
  | none => none
  | some u4 =>
    fixFinalize original_url
      (if startsWithStr u4 ("http://law.dot.gov.tw") then pyReplace u4 ("http://") ("https://")
       else u4)

/-- `TaxRulingScraper.fix_url_comprehensive` (smart_scraper.py, lines
134–183).  `none` models an exception escaping the function (only possible
from the unguarded `urljoin` call); the final `urlparse` validation is
wrapped in `try/except`, and on any validation failure the function returns
`original_url` — the raw input string — not `None`. -/
def fix_url_comprehensive (url : String) : Option String :=
  if url = "" then some ""
  else
    let u0 := pyStripStr url
    let u1 := url_error_patterns.foldl (fun u pr =>
      if containsSub u pr.1 ∧ pr.1 ≠ "//" then pyReplace u pr.1 pr.2 else u) u0
    let u2 :=
      if containsSub u1 ("//") ∧ ¬startsWithStr u1 ("http") then subDoubleSlash u1 else u1
    fixTail url u2

/-- The link-handling fragment of `extract_ruling_from_cells` (smart_scraper.py,
lines 311–315): for a truthy `href` the record receives
`url = fix_url_comprehensive(href)` and `original_url = href`; `none` models
the exception path (the caller's `except` then discards the record). -/
def setLink (href : String) (r : SRec) : Option SRec :=
  if href = "" then some r
  else
    match fix_url_comprehensive href with
    | some u => some { r with url := some u, original_url := some href }
    | none => none

/-!
### `TaxRulingScraper.compare_and_update` and the persistence step models
-/

/-- The pair `(new_items, history)` returned by `compare_and_update`. -/
structure SmartUpd where
  new_items : List SRec
  history : List SRec
deriving DecidableEq, Repr

/-- The set comprehension
`{item.get('id') for item in history if item.get('id')}` (as a list; only
membership is consulted). -/
def historyIds (history : List SRec) : List String :=
  history.filterMap (fun item => truthy item.id)

/-- `ruling.get('id') and ruling['id'] not in history_ids`. -/
def smartNewPred (history_ids : List String) (ruling : SRec) : Bool :=
  match truthy ruling.id with
  | some i => !history_ids.contains i
  | none => false

/-- Pure core of `TaxRulingScraper.compare_and_update` (smart_scraper.py,
lines 469–522).  `history` is the list loaded from `smart_history.json`.
New items are the rulings whose truthy `id` is not among the truthy history
ids; when there are any, they are appended and, if the total then exceeds
1000, only the last 1000 list positions are kept
(`history = history[-1000:]`).  The trimmed list is produced before the save
is attempted and is returned whether or not the save succeeds. -/
def compare_and_update (new_rulings history : List SRec) : SmartUpd :=
  let new_items := new_rulings.filter (smartNewPred (historyIds history))
  if new_items ≠ [] then
    let h := history ++ new_items
    let h2 := if h.length > 1000 then h.drop (h.length - 1000) else h
    { new_items := new_items, history := h2 }
  else
    { new_items := new_items, history := history }

/-- The two files the save procedures touch: the persisted history file and
the temporary file (content `none` = file absent). -/
structure StoreFS where
  file : Option String
  temp : Option String
deriving DecidableEq, Repr

/-- The sequence of file-system states passed through by
`ImprovedDraftLawScraper.save_history` (draft_law_scraper.py, lines 353–367):
the history file is opened with mode `'w'` — truncating it — and the
serialized content `s` is written directly into it, so an interruption after
`k` characters leaves the file holding the prefix `s.take k`; the final state
is the complete write.  No temporary file is involved. -/
def save_history_states (fs : StoreFS) (s : String) : List StoreFS :=
  (List.range (s.length + 1)).map
    (fun k => { fs with file := some (String.mk (s.data.take k)) })

/-- The sequence of file-system states passed through by the save inside
`TaxRulingScraper.compare_and_update` (smart_scraper.py, lines 506–520): the
serialized content is written to the temporary file (the history file
untouched), the temporary file is re-read and parsed (`verify_ok`), and only
then `temp_file.replace(history_file)` atomically renames it over the history
file; on any failure the `except` branch unlinks the temporary file and the
history file keeps its previous content. -/
def atomic_save_states (fs : StoreFS) (s : String) (verify_ok : Bool) : List StoreFS :=
  ((List.range (s.length + 1)).map
      (fun k => { fs with temp := some (String.mk (s.data.take k)) }))
    ++ (if verify_ok then [{ file := some s, temp := none }]
        else [{ fs with temp := none }])

/-- Crash safety of a save procedure writing content `s` over state `fs`: at
every reachable intermediate state the persisted history file holds either
its previous content or the complete new content — never a partial write. -/
def crashSafe (fs : StoreFS) (s : String) (states : List StoreFS) : Prop :=
  ∀ st ∈ states, st.file = fs.file ∨ st.file = some s

/-- `status == 'expired'`. -/
def isExpired (d : Draft) : Bool := d.status == some ("expired")

/-!
### Concrete records used by the witnesses and counterexamples
-/

def c1dupA : Draft :=
  { unique_id := some ("u"), title := some ("T"), date := some ("2025-01-01"),
    status := some ("active") }

def c1dupB : Draft :=
  { unique_id := some ("u"), title := some ("T"), date := some ("2025-01-02"),
    status := some ("active") }

def c1exB : Draft :=
  { unique_id := some ("v"), title := some ("T2"), status := some ("expired") }

def c1exH : Draft :=
  { unique_id := some ("v"), title := some ("T1"), status := some ("active") }

def c1oldR : SRec := { id := some ("o") }

def c1reA : SRec := { id := some ("a"), title := some ("reappearing ruling") }

def c1newB : SRec := { id := some ("b") }

def c1head : SRec := { id := some ("a") }

/-- A full (1000-entry) smart-scraper history whose first entry carries the
id `"a"`. -/
def c1hist : List SRec := c1head :: List.replicate 999 c1oldR

def c1w : Draft :=
  { unique_id := some ("w1"), title := some ("W"), date := some ("2025-03-01"),
    status := some ("active") }

def c2a : Draft :=
  { unique_id := some ("u"), title := some ("A"), date := some ("2025-01-01"),
    status := some ("active") }

def c2b : Draft :=
  { unique_id := some ("u"), title := some ("B"), date := some ("2025-01-01"),
    status := some ("active") }

def c2wB : Draft :=
  { unique_id := some ("x1"), title := some ("X"), status := some ("active") }

def c2wH : Draft :=
  { unique_id := some ("y1"), title := some ("Y"), status := some ("active") }

def c3batch : Draft :=
  { unique_id := some ("a1"), url := some ("https://law-out.mof.gov.tw/draft/1"),
    title := some ("T1"), date := some ("2025-01-02"), status := some ("active") }

def c3hist : Draft :=
  { unique_id := some ("a1"), url := some ("https://law-out.mof.gov.tw/draft/1"),
    title := some ("T1"), date := some ("2025-01-01"), status := some ("active") }

def c4dupA : Draft :=
  { unique_id := some ("u"), title := some ("T1"), status := some ("active") }

def c4dupB : Draft :=
  { unique_id := some ("u"), title := some ("T2"), status := some ("active") }

def c4act : Draft :=
  { unique_id := some ("h1"), title := some ("still active entry"),
    date := some ("2025-01-01"), status := some ("active") }

def c4exp : Draft :=
  { unique_id := some ("h2"), title := some ("already expired entry"),
    date := some ("2024-12-01"), status := some ("expired"), expired_at := some ("t0") }

def c4new : Draft :=
  { unique_id := some ("n1"), title := some ("new record"),
    date := some ("2025-02-01"), status := some ("active") }

def c5u1 : Draft :=
  { url := some ("https://law-out.mof.gov.tw/draft/7"), title := some ("甲"),
    date := some ("2025-01-01") }

def c5u2 : Draft :=
  { url := some ("https://law-out.mof.gov.tw/draft/7"), title := some ("乙"),
    date := some ("2025-02-02") }

def c5r1 : SRec :=
  { url := some ("https://law.dot.gov.tw/law-ch/x.jsp"), date := some ("114.01.01"),
    title := some ("T") }

def c5r2 : SRec :=
  { url := some ("https://law.dot.gov.tw/law-ch/x.jsp"), date := some ("114.01.02"),
    title := some ("T") }

def c7rec : SRec := { title := some ("R") }

def c8fs : StoreFS := { file := some ("[OLD]"), temp := none }

def c9new : SRec := { id := some ("fresh"), scrape_time := some ("2025-09-09") }

def c9latest : SRec := { id := some ("latest"), scrape_time := some ("2025-08-08") }

def c9oldR : SRec := { id := some ("old"), scrape_time := some ("2020-01-01") }

/-- A 1001-entry history whose head is the most recently scraped entry. -/
def c9hist : List SRec := c9latest :: List.replicate 1000 c9oldR

/-- A 1001-entry history (already above the ceiling). -/
def c9hist2 : List SRec := List.replicate 1001 c9oldR

def c9dup : SRec := { id := some ("old") }

/-!
## Theorems

Helper lemmas about the dict and sort models, then one theorem (plus witness
or counterexample) per claim.
-/

theorem insertDesc_perm (x : Draft) (l : List Draft) :
    List.Perm (insertDesc x l) (x :: l) := by
  induction l with
  | nil => simp [insertDesc]
  | cons y ys ih =>
    simp only [insertDesc]
    split
    · exact (ih.cons y).trans (List.Perm.swap x y ys)
    · exact List.Perm.refl _

theorem sortByDateDesc_go_perm (l acc : List Draft) :
    List.Perm (l.foldl (fun a x => insertDesc x a) acc) (acc ++ l) := by
  induction l generalizing acc with
  | nil => simp
  | cons x xs ih =>
    have h1 : (x :: xs).foldl (fun a x => insertDesc x a) acc
        = xs.foldl (fun a x => insertDesc x a) (insertDesc x acc) := rfl
    rw [h1]
    refine (ih _).trans ?_
    refine ((insertDesc_perm x acc).append_right xs).trans ?_
    exact List.perm_middle.symm

theorem sortByDateDesc_perm (l : List Draft) : List.Perm (sortByDateDesc l) l := by
  simpa using sortByDateDesc_go_perm l []

theorem dictKeys_nil : dictKeys [] = [] := rfl

theorem dictKeys_cons (p : String × Draft) (d : List (String × Draft)) :
    dictKeys (p :: d) = p.1 :: dictKeys d := rfl

theorem dictKeys_dictInsert (k : String) (v : Draft) (d : List (String × Draft)) :
    dictKeys (dictInsert k v d) =
      if k ∈ dictKeys d then dictKeys d else dictKeys d ++ [k] := by
  induction d with
  | nil => simp [dictInsert, dictKeys]
  | cons p rest ih =>
    by_cases hpk : p.1 = k
    · subst hpk
      simp [dictInsert, dictKeys_cons]
    · have hkiff : (k ∈ dictKeys (p :: rest)) ↔ (k ∈ dictKeys rest) := by
        rw [dictKeys_cons, List.mem_cons]
        simp only [or_iff_right_iff_imp]
        intro h
        exact absurd h.symm hpk
      rw [show dictInsert k v (p :: rest) = p :: dictInsert k v rest by
        simp [dictInsert, hpk]]
      rw [dictKeys_cons, ih]
      by_cases hk : k ∈ dictKeys rest
      · rw [if_pos hk, if_pos (hkiff.mpr hk), dictKeys_cons]
      · rw [if_neg hk, if_neg (fun hc => hk (hkiff.mp hc)), dictKeys_cons]
        simp

theorem dictInsert_of_not_mem (k : String) (v : Draft) (d : List (String × Draft))
    (h : k ∉ dictKeys d) : dictInsert k v d = d ++ [(k, v)] := by
  induction d with
  | nil => simp [dictInsert]
  | cons p rest ih =>
    rw [dictKeys_cons, List.mem_cons] at h
    push_neg at h
    simp only [dictInsert]
    rw [if_neg (fun hc => h.1 hc.symm), ih h.2]
    simp

theorem mem_dictInsert_elim (k : String) (v : Draft) (d : List (String × Draft))
    (q : String × Draft) (h : q ∈ dictInsert k v d) : q = (k, v) ∨ q ∈ d := by
  induction d with
  | nil => simpa [dictInsert] using h
  | cons p rest ih =>
    simp only [dictInsert] at h
    split at h
    · rcases List.mem_cons.mp h with h1 | h2
      · exact Or.inl h1
      · exact Or.inr (List.mem_cons_of_mem _ h2)
    · rcases List.mem_cons.mp h with h1 | h2
      · refine Or.inr ?_
        rw [h1]
        exact List.mem_cons_self _ _
      · rcases ih h2 with h3 | h4
        · exact Or.inl h3
        · exact Or.inr (List.mem_cons_of_mem _ h4)

theorem buildDict_eq_foldl (l : List Draft) : buildDict l = l.foldl buildDictStep [] := by
  rfl

theorem buildDictGo_mem (l : List Draft) (acc : List (String × Draft)) (q : String × Draft)
    (h : q ∈ l.foldl buildDictStep acc) :
    q ∈ acc ∨ (uidOf q.2 = some q.1 ∧ q.2 ∈ l) := by
  induction l generalizing acc with
  | nil => exact Or.inl h
  | cons r rest ih =>
    rcases ih (buildDictStep acc r) h with h1 | h2
    · unfold buildDictStep at h1
      split at h1
      next k hk =>
        rcases mem_dictInsert_elim _ _ _ _ h1 with h3 | h4
        · refine Or.inr ?_
          rw [h3]
          exact ⟨hk, List.mem_cons_self _ _⟩
        · exact Or.inl h4
      next => exact Or.inl h1
    · exact Or.inr ⟨h2.1, List.mem_cons_of_mem _ h2.2⟩

theorem buildDict_mem (l : List Draft) (q : String × Draft) (h : q ∈ buildDict l) :
    uidOf q.2 = some q.1 ∧ q.2 ∈ l := by
  rcases buildDictGo_mem l [] q (by simpa [buildDict_eq_foldl] using h) with h1 | h2
  · simp at h1
  · exact h2

theorem buildDictGo_keysNodup (l : List Draft) (acc : List (String × Draft))
    (h : (dictKeys acc).Nodup) : (dictKeys (l.foldl buildDictStep acc)).Nodup := by
  induction l generalizing acc with
  | nil => exact h
  | cons r rest ih =>
    refine ih (buildDictStep acc r) ?_
    unfold buildDictStep
    cases huid : uidOf r with
    | none => exact h
    | some k =>
      rw [dictKeys_dictInsert]
      by_cases hk : k ∈ dictKeys acc
      · rw [if_pos hk]
        exact h
      · rw [if_neg hk]
        exact ((List.perm_append_singleton k (dictKeys acc)).nodup_iff).mpr
          (List.nodup_cons.mpr ⟨hk, h⟩)

theorem buildDict_keysNodup (l : List Draft) : (dictKeys (buildDict l)).Nodup := by
  exact buildDictGo_keysNodup l [] (by simp [dictKeys])

theorem hasKey_iff (d : List (String × Draft)) (k : String) :
    hasKey d k = true ↔ k ∈ dictKeys d := by
  simp only [hasKey, List.any_eq_true, dictKeys, List.mem_map, beq_iff_eq]

theorem dictLookup_eq_some (d : List (String × Draft)) (k : String) (v : Draft)
    (hnd : (dictKeys d).Nodup) (hm : (k, v) ∈ d) : dictLookup d k = some v := by
  induction d with
  | nil => simp at hm
  | cons p rest ih =>
    rw [dictKeys_cons, List.nodup_cons] at hnd
    rcases List.mem_cons.mp hm with h1 | h2
    · rw [← h1]
      simp [dictLookup]
    · have hb : (p.1 == k) = false := by
        simp only [beq_eq_false_iff_ne, ne_eq]
        intro he
        refine hnd.1 ?_
        rw [he]
        exact List.mem_map.mpr ⟨(k, v), h2, rfl⟩
      simp only [dictLookup, List.find?, hb]
      exact ih hnd.2 h2

theorem buildDictGo_eq_append (l : List Draft) (acc : List (String × Draft))
    (hd : ∀ r ∈ l, ∀ u, uidOf r = some u → u ∉ dictKeys acc)
    (hnd : (l.filterMap uidOf).Nodup) :
    l.foldl buildDictStep acc
      = acc ++ l.filterMap (fun r => (uidOf r).map (fun u => (u, r))) := by
  induction l generalizing acc with
  | nil => simp
  | cons r rest ih =>
    rw [List.foldl_cons]
    cases huid : uidOf r with
    | none =>
      have hstep : buildDictStep acc r = acc := by
        unfold buildDictStep
        rw [huid]
      rw [hstep, ih acc (fun r' hr' u hu => hd r' (List.mem_cons_of_mem _ hr') u hu)
        (by simpa [List.filterMap_cons, huid] using hnd)]
      simp [List.filterMap_cons, huid]
    | some u =>
      have hstep : buildDictStep acc r = acc ++ [(u, r)] := by
        unfold buildDictStep
        rw [huid]
        exact dictInsert_of_not_mem u r acc (hd r (List.mem_cons_self _ _) u huid)
      have hcons : (u :: rest.filterMap uidOf).Nodup := by
        simpa [List.filterMap_cons, huid] using hnd
      have hu_not : u ∉ rest.filterMap uidOf := (List.nodup_cons.mp hcons).1
      have hnd2 : (rest.filterMap uidOf).Nodup := (List.nodup_cons.mp hcons).2
      rw [hstep, ih (acc ++ [(u, r)]) ?_ hnd2]
      · rw [List.append_assoc]
        simp [List.filterMap_cons, huid]
      · intro r' hr' u' hu'
        have h1 : u' ∉ dictKeys acc := hd r' (List.mem_cons_of_mem _ hr') u' hu'
        have h2 : u' ≠ u := by
          intro he
          apply hu_not
          rw [← he]
          exact List.mem_filterMap.mpr ⟨r', hr', hu'⟩
        rw [show dictKeys (acc ++ [(u, r)]) = dictKeys acc ++ [u] by simp [dictKeys]]
        intro hc
        rcases List.mem_append.mp hc with hc1 | hc2
        · exact h1 hc1
        · exact h2 (List.mem_singleton.mp hc2)

theorem buildDict_eq_of_nodup (l : List Draft) (hnd : (l.filterMap uidOf).Nodup) :
    buildDict l = l.filterMap (fun r => (uidOf r).map (fun u => (u, r))) := by
  rw [buildDict_eq_foldl]
  simpa using buildDictGo_eq_append l [] (by simp [dictKeys]) hnd

theorem mem_buildDict_of_nodup (l : List Draft) (r : Draft) (u : String)
    (hnd : (l.filterMap uidOf).Nodup) (hr : r ∈ l) (hu : uidOf r = some u) :
    (u, r) ∈ buildDict l := by
  rw [buildDict_eq_of_nodup l hnd]
  refine List.mem_filterMap.mpr ⟨r, hr, ?_⟩
  rw [hu]
  rfl

theorem uid_inj_of_nodup (l : List Draft) (hnd : (l.filterMap uidOf).Nodup)
    (a b : Draft) (u : String) (ha : a ∈ l) (hb : b ∈ l)
    (hua : uidOf a = some u) (hub : uidOf b = some u) : a = b := by
  induction l with
  | nil => simp at ha
  | cons x rest ih =>
    have hnd' : (rest.filterMap uidOf).Nodup := by
      cases hx : uidOf x <;> simp only [List.filterMap_cons, hx] at hnd
      · exact hnd
      · exact (List.nodup_cons.mp hnd).2
    rcases List.mem_cons.mp ha with ha1 | ha2 <;> rcases List.mem_cons.mp hb with hb1 | hb2
    · rw [ha1, hb1]
    · exfalso
      have hx : uidOf x = some u := ha1 ▸ hua
      have hmem : u ∈ rest.filterMap uidOf := List.mem_filterMap.mpr ⟨b, hb2, hub⟩
      simp only [List.filterMap_cons, hx] at hnd
      exact (List.nodup_cons.mp hnd).1 hmem
    · exfalso
      have hx : uidOf x = some u := hb1 ▸ hub
      have hmem : u ∈ rest.filterMap uidOf := List.mem_filterMap.mpr ⟨a, ha2, hua⟩
      simp only [List.filterMap_cons, hx] at hnd
      exact (List.nodup_cons.mp hnd).1 hmem
    · exact ih hnd' ha2 hb2

theorem updatedVersion_unique_id (ui : List Draft) (d : Draft) :
    (updatedVersion ui d).unique_id = d.unique_id := by
  unfold updatedVersion
  cases hf : ui.find? (fun item => item.unique_id == d.unique_id) with
  | none => rfl
  | some u =>
    have := List.find?_some hf
    simpa [beq_iff_eq] using this

theorem filterMap_uidOf_map (l : List Draft) (f : Draft → Draft)
    (hf : ∀ d, (f d).unique_id = d.unique_id) :
    (l.map f).filterMap uidOf = l.filterMap uidOf := by
  rw [List.filterMap_map]
  refine List.filterMap_congr ?_
  intro a _
  simp [Function.comp, uidOf, hf a]

/-!
### Claim C6 — date conversion
-/

/-- C6 counterexample: the claim says conversion yields `"2025-07-30"` for
`"114年07月30日"` and null for `"abc"`.  In the code, `convert_roc_date`
handles only the dotted pattern and falls through to `return roc_date` for
everything else: both inputs come back unchanged (and non-null). -/
theorem C6_counterexample :
    convert_roc_date ("114年07月30日") = "114年07月30日" ∧
    ("114年07月30日" : String) ≠ "2025-07-30" ∧
    convert_roc_date ("abc") = "abc" ∧
    ("abc" : String) ≠ "" := by
  exact ⟨by decide, by decide, by decide, by decide⟩

/-- C6 (amended): `convert_roc_date` attempts only the dotted `era.mm.dd`
pattern, converting `"114.08.19"` to `"2025-08-19"`; every input that does
not split on `'.'` into exactly three integer parts (such as `"abc"` or
`"114年07月30日"`) is returned unchanged — never null, never an exception.
The multi-pattern priority list lives in `extract_date`, which tries
`era年mm月dd日`, `era.mm.dd`, `era/mm/dd`, `民國era年mm月dd日` in that fixed
order but returns the matched substring in its original ROC form (or `""`
when nothing matches); no function converts the `年月日` forms. -/
theorem C6_date_conversion_amended :
    (∀ s : String, (pySplit '.' s).length ≠ 3 → convert_roc_date s = s) ∧
    convert_roc_date ("114.08.19") = "2025-08-19" ∧
    convert_roc_date ("114年07月30日") = "114年07月30日" ∧
    convert_roc_date ("abc") = "abc" ∧
    extract_date ("公告 114年07月30日") = "114年07月30日" ∧
    extract_date ("114.08.19") = "114.08.19" ∧
    extract_date ("abc") = "" := by
  refine ⟨?_, by decide, by decide, by decide, by decide, by decide, by decide⟩
  intro s h
  simp only [convert_roc_date]
  rw [if_neg h]

/-- C6 witness: the general clause of the amended theorem applied at a
concrete non-matching input. -/
theorem C6_witness : convert_roc_date ("xyz-1") = "xyz-1" :=
  C6_date_conversion_amended.1 ("xyz-1") (by decide)

/-!
### Claims C10 and C5 — identifier generation
-/

theorem hexChar_mem (n : Nat) : hexChar n ∈ hexChars := by
  have hball : ∀ m, m < 16 → hexChars.getD m '0' ∈ hexChars := by decide
  exact hball (n % 16) (Nat.mod_lt _ (by decide))

theorem mem_hexPair (c : Char) (b : Nat) (h : c ∈ hexPair b) : c ∈ hexChars := by
  rcases List.mem_cons.mp h with h1 | h2
  · rw [h1]
    exact hexChar_mem _
  · rw [List.mem_singleton.mp h2]
    exact hexChar_mem _

theorem md5Bytes_length (msg : List Nat) : (md5Bytes msg).length = 16 := by
  simp [md5Bytes, wordBytes]

theorem hexPairFlat_length (l : List Nat) : ((l.map hexPair).flatten).length = 2 * l.length := by
  induction l with
  | nil => rfl
  | cons x xs ih =>
    simp only [List.map_cons, List.flatten_cons, List.length_append, ih, hexPair,
      List.length_cons, List.length_nil]
    omega

theorem md5hexdigest_spec (msg : List Nat) :
    (md5hexdigest msg).data.length = 32 ∧ ∀ c ∈ (md5hexdigest msg).data, c ∈ hexChars := by
  constructor
  · show ((md5Bytes msg).map hexPair).flatten.length = 32
    rw [hexPairFlat_length, md5Bytes_length]
  · intro c hc
    have hc' : c ∈ ((md5Bytes msg).map hexPair).flatten := hc
    rcases List.mem_flatten.mp hc' with ⟨s, hs, hcs⟩
    rcases List.mem_map.mp hs with ⟨b, _, rfl⟩
    exact mem_hexPair c b hcs

theorem take12_spec (msg : List Nat) :
    (String.mk ((md5hexdigest msg).data.take 12)).length = 12 ∧
    ∀ c ∈ (String.mk ((md5hexdigest msg).data.take 12)).data, c ∈ hexChars := by
  have hspec := md5hexdigest_spec msg
  constructor
  · show ((md5hexdigest msg).data.take 12).length = 12
    rw [List.length_take, hspec.1]
    rfl
  · intro c hc
    exact hspec.2 c (List.take_subset _ _ hc)

/-- C10: both identifier generators are total with a fixed-shape result — for
every record (including one with every keyed field missing, so that the
hashed key is empty) the result is a string of exactly 12 characters, each a
lowercase hexadecimal digit. -/
theorem C10_identifier_shape (d : Draft) (r : SRec) :
    ((generate_unique_id d).length = 12 ∧
      ∀ c ∈ (generate_unique_id d).data, c ∈ hexChars) ∧
    ((generate_id r).length = 12 ∧
      ∀ c ∈ (generate_id r).data, c ∈ hexChars) := by
  constructor
  · rcases h : truthy d.url with _ | u <;> simp only [generate_unique_id, h] <;>
      exact take12_spec _
  · simp only [generate_id]
    exact take12_spec _

/-- C5 (amended): `generate_unique_id` (draft_law_scraper.py) prefers the
URL: any two records carrying the same truthy URL receive the same
identifier, deterministically (the identifier is the first 12 hex characters
of the MD5 of the UTF-8 key, with title+date as the fallback key only when no
URL exists).  `generate_id` of smart_scraper.py — also cited by the claim —
does *not* satisfy this: its key is `date|doc_number|title[:50]` and ignores
the URL entirely (see the counterexample). -/
theorem C5_identity_stability_amended (d1 d2 : Draft) (u : String)
    (h1 : truthy d1.url = some u) (h2 : truthy d2.url = some u) :
    generate_unique_id d1 = generate_unique_id d2 := by
  simp only [generate_unique_id, h1, h2]

/-- C5 witness: two records sharing the canonical URL
`https://law-out.mof.gov.tw/draft/7` but differing in title and date receive
the same `generate_unique_id`. -/
theorem C5_witness : generate_unique_id c5u1 = generate_unique_id c5u2 :=
  C5_identity_stability_amended c5u1 c5u2 ("https://law-out.mof.gov.tw/draft/7")
    (by decide) (by decide)

/-- C5 counterexample: two smart_scraper rulings with the identical URL but
different dates receive different identifiers from `generate_id`, refuting
`assign_id(R1) == assign_id(R2)` for records with identical canonical_url. -/
theorem C5_counterexample :
    c5r1.url = c5r2.url ∧ generate_id c5r1 ≠ generate_id c5r2 := by
  exact ⟨rfl, by decide⟩

/-!
### Claim C7 — link repair
-/

theorem fixFinalize_cases (o u : String) :
    (∃ parts, urlsplitD ("") u = some parts ∧ parts.scheme ≠ "" ∧ parts.netloc ≠ "" ∧
      fixFinalize o u = some u) ∨
    fixFinalize o u = some o := by
  unfold fixFinalize
  cases h : urlsplitD ("") u with
  | none =>
    right
    rfl
  | some parts =>
    by_cases hc : parts.scheme ≠ "" ∧ parts.netloc ≠ ""
    · left
      refine ⟨parts, rfl, hc.1, hc.2, ?_⟩
      show (if parts.scheme ≠ "" ∧ parts.netloc ≠ "" then some u else some o) = some u
      rw [if_pos hc]
    · right
      show (if parts.scheme ≠ "" ∧ parts.netloc ≠ "" then some u else some o) = some o
      rw [if_neg hc]

theorem fixTail_cases (o u2 : String) :
    (∃ v parts, fixTail o u2 = some v ∧ urlsplitD ("") v = some parts ∧
      parts.scheme ≠ "" ∧ parts.netloc ≠ "") ∨
    fixTail o u2 = some o ∨ fixTail o u2 = none := by
  unfold fixTail
  cases hr : fixResolve u2 with
  | none =>
    right
    right
    rfl
  | some u4 =>
    rcases fixFinalize_cases o
        (if startsWithStr u4 ("http://law.dot.gov.tw") then pyReplace u4 ("http://") ("https://")
         else u4) with ⟨parts, h1, h2, h3, h4⟩ | h
    · left
      exact ⟨_, parts, h4, h1, h2, h3⟩
    · right
      left
      exact h

/-- C7 (amended): for every input, `fix_url_comprehensive` returns the empty
string (for a falsy input), or a string that parses with a non-empty scheme
and authority, or the *original input string itself* — not `None`/null — and
for certain pathological inputs the unguarded `urljoin` call lets a
`ValueError` escape (modelled as `none`).  The caller stores the raw `href`
in `original_url` whenever it stores a repaired `url`, so the raw text is
retained; repairs resolve scheme-less inputs against the base origin and
force HTTPS for the source's domain. -/
theorem C7_link_repair_amended :
    (∀ url : String,
      (url = "" ∧ fix_url_comprehensive url = some "") ∨
      ((∃ v parts, fix_url_comprehensive url = some v ∧ urlsplitD ("") v = some parts ∧
          parts.scheme ≠ "" ∧ parts.netloc ≠ "") ∨
        fix_url_comprehensive url = some url ∨ fix_url_comprehensive url = none)) ∧
    (∀ (href : String) (r : SRec) (u : String), href ≠ "" →
      fix_url_comprehensive href = some u →
      setLink href r = some { r with url := some u, original_url := some href }) ∧
    fix_url_comprehensive ("/law-ch/law.jsp?id=1")
        = some ("https://law.dot.gov.tw/law-ch/law.jsp?id=1") ∧
    fix_url_comprehensive ("http://law.dot.gov.tw/a") = some ("https://law.dot.gov.tw/a") := by
  refine ⟨?_, ?_, by decide, by decide⟩
  · intro url
    by_cases h0 : url = ""
    · left
      subst h0
      exact ⟨rfl, rfl⟩
    · right
      simp only [fix_url_comprehensive, if_neg h0]
      exact fixTail_cases url _
  · intro href r u hne hfix
    unfold setLink
    rw [if_neg hne, hfix]

/-- C7 witness: the retention clause of the amended theorem at a concrete
link: the stored record keeps the raw `href` in `original_url` alongside the
repaired absolute URL. -/
theorem C7_witness :
    setLink ("x.jsp") c7rec
      = some { c7rec with url := some ("https://law.dot.gov.tw/law-ch/x.jsp"), original_url := some ("x.jsp") } :=
  C7_link_repair_amended.2.1 ("x.jsp") c7rec ("https://law.dot.gov.tw/law-ch/x.jsp")
    (by decide) (by decide)

/-- C7 counterexample: for the structurally invalid input `"http://"` the
function returns the original input string (which has no authority), not
null; and for `"http-x://[e"` the `ValueError` raised by `urlsplit` inside
the unguarded `urljoin` call escapes the function — in neither case is null
returned with the raw text only in `original_url`. -/
theorem C7_counterexample :
    fix_url_comprehensive ("http://") = some ("http://") ∧
    (urlsplitD ("") ("http://")).map SplitURL.netloc = some ("") ∧
    ("http://" : String) ≠ "" ∧
    fix_url_comprehensive ("http-x://[e") = none := by
  exact ⟨by decide, by decide, by decide, by decide⟩

/-!
### Claim C8 — crash-safe persistence
-/

/-- C8 (amended): the save inside `TaxRulingScraper.compare_and_update` is
crash-safe and atomic: every intermediate state keeps the history file at its
previous or its complete new content; on a successful verification the final
state holds the new content, and on any failure every state — including the
final one — still holds the previous content.  (`save_history` of
draft_law_scraper.py does **not** have this property; see the
counterexample.) -/
theorem C8_atomic_save_amended (fs : StoreFS) (s : String) (verify_ok : Bool) :
    crashSafe fs s (atomic_save_states fs s verify_ok) ∧
    (verify_ok = true →
      ({ file := some s, temp := none } : StoreFS) ∈ atomic_save_states fs s verify_ok) ∧
    (verify_ok = false →
      ({ file := fs.file, temp := none } : StoreFS) ∈ atomic_save_states fs s verify_ok) ∧
    (verify_ok = false → ∀ st ∈ atomic_save_states fs s verify_ok, st.file = fs.file) := by
  refine ⟨?_, ?_, ?_, ?_⟩
  · intro st hst
    rcases List.mem_append.mp hst with h | h
    · rcases List.mem_map.mp h with ⟨k, _, rfl⟩
      left
      rfl
    · cases verify_ok with
      | true =>
        simp at h
        rw [h]
        right
        rfl
      | false =>
        simp at h
        rw [h]
        left
        rfl
  · intro hok
    subst hok
    refine List.mem_append.mpr (Or.inr ?_)
    simp
  · intro hok
    subst hok
    refine List.mem_append.mpr (Or.inr ?_)
    simp
  · intro hok st hst
    subst hok
    rcases List.mem_append.mp hst with h | h
    · rcases List.mem_map.mp h with ⟨k, _, rfl⟩
      rfl
    · simp at h
      rw [h]

/-- C8 witness: the amended theorem at a concrete store state and content. -/
theorem C8_witness :
    crashSafe c8fs ("[NEW]") (atomic_save_states c8fs ("[NEW]") true) ∧
    ({ file := some ("[NEW]"), temp := none } : StoreFS)
      ∈ atomic_save_states c8fs ("[NEW]") true := by
  have h := C8_atomic_save_amended c8fs ("[NEW]") true
  exact ⟨h.1, h.2.1 rfl⟩

/-- C8 counterexample: `ImprovedDraftLawScraper.save_history` writes the
history file in place (mode `'w'`, no temporary file, no verification, no
atomic replace): interrupted after one character it leaves the file holding
`"["` — neither the old `"[OLD]"` nor the new `"[NEW]"` content — so saving
the History Store is *not* crash-safe as claimed. -/
theorem C8_counterexample :
    ¬ crashSafe c8fs ("[NEW]") (save_history_states c8fs ("[NEW]")) := by
  unfold crashSafe
  decide

/-!
### Claim C2 — identifier uniqueness in the saved history
-/

theorem cas_new_items (now : String) (batch history : List Draft) :
    (compare_and_update_smart now batch history).new_items
      = newItemsOf (buildDict batch) (buildDict history) := rfl

theorem cas_updated_items (now : String) (batch history : List Draft) :
    (compare_and_update_smart now batch history).updated_items
      = updatedItemsOf now (buildDict batch) (buildDict history) := rfl

theorem cas_updated_history (now : String) (batch history : List Draft) :
    (compare_and_update_smart now batch history).updated_history
      = updatedHistoryOf now batch (buildDict batch) (buildDict history) := rfl

theorem dictKeys_buildDictGo (l : List Draft) (acc : List (String × Draft)) (u : String) :
    u ∈ dictKeys (l.foldl buildDictStep acc) ↔
      u ∈ dictKeys acc ∨ ∃ r ∈ l, uidOf r = some u := by
  induction l generalizing acc with
  | nil => simp
  | cons r rest ih =>
    rw [List.foldl_cons, ih]
    have hstep : u ∈ dictKeys (buildDictStep acc r) ↔
        u ∈ dictKeys acc ∨ uidOf r = some u := by
      unfold buildDictStep
      cases hr : uidOf r with
      | none => simp
      | some k =>
        rw [dictKeys_dictInsert]
        by_cases hk : k ∈ dictKeys acc
        · rw [if_pos hk]
          simp only [Option.some.injEq]
          constructor
          · exact Or.inl
          · rintro (h | h)
            · exact h
            · rw [← h]
              exact hk
        · rw [if_neg hk]
          simp [List.mem_append, eq_comm]
    rw [hstep]
    simp only [List.mem_cons, exists_eq_or_imp]
    tauto

theorem mem_dictKeys_buildDict (l : List Draft) (u : String) :
    u ∈ dictKeys (buildDict l) ↔ ∃ r ∈ l, uidOf r = some u := by
  rw [buildDict_eq_foldl, dictKeys_buildDictGo]
  simp [dictKeys]

theorem filterMap_uid_map_snd (d : List (String × Draft))
    (h : ∀ p ∈ d, uidOf p.2 = some p.1) :
    (d.map Prod.snd).filterMap uidOf = d.map Prod.fst := by
  induction d with
  | nil => rfl
  | cons p rest ih =>
    simp only [List.map_cons, List.filterMap_cons, h p (List.mem_cons_self _ _)]
    rw [ih (fun q hq => h q (List.mem_cons_of_mem _ hq))]

theorem markedDict_fst (now : String) (cd hd : List (String × Draft)) :
    (markedDictOf now cd hd).map Prod.fst = hd.map Prod.fst := by
  unfold markedDictOf
  rw [List.map_map]
  refine List.map_congr_left ?_
  intro p _
  by_cases h : isNewlyExpired cd p = true
  · simp [h]
  · simp [h]

theorem markedDict_kv (now : String) (cd hd : List (String × Draft))
    (h : ∀ p ∈ hd, uidOf p.2 = some p.1) :
    ∀ p ∈ markedDictOf now cd hd, uidOf p.2 = some p.1 := by
  intro p hp
  unfold markedDictOf at hp
  rcases List.mem_map.mp hp with ⟨q, hq, rfl⟩
  by_cases hix : isNewlyExpired cd q = true
  · simp only [hix, if_true]
    exact h q hq
  · simp only [hix, if_false]
    exact h q hq

/-- The uids occurring in the expired part are history-dict keys absent from
the current dict. -/
theorem expiredEntries_uid (now : String) (cd hd : List (String × Draft)) (e : Draft)
    (he : e ∈ expiredEntriesOf now cd hd)
    (hkv : ∀ p ∈ hd, uidOf p.2 = some p.1) :
    ∃ u, uidOf e = some u ∧ ¬hasKey cd u = true ∧ u ∈ dictKeys hd := by
  unfold expiredEntriesOf at he
  rcases List.mem_map.mp he with ⟨q, hq, rfl⟩
  have hq1 := List.mem_filter.mp hq
  have hkv' : uidOf q.2 = some q.1 := markedDict_kv now cd hd hkv q hq1.1
  refine ⟨q.1, hkv', ?_, ?_⟩
  · have := hq1.2
    unfold isKeptExpired at this
    simp only [Bool.and_eq_true, Bool.not_eq_true'] at this
    simp [this.1]
  · have : q.1 ∈ (markedDictOf now cd hd).map Prod.fst := List.mem_map.mpr ⟨q, hq1.1, rfl⟩
    rw [markedDict_fst] at this
    exact this

/-- The uid list of the expired part is duplicate-free (it is a sublist of
the history dict's key list). -/
theorem expiredEntries_uid_nodup (now : String) (cd hd : List (String × Draft))
    (hkeys : (hd.map Prod.fst).Nodup)
    (hkv : ∀ p ∈ hd, uidOf p.2 = some p.1) :
    ((expiredEntriesOf now cd hd).filterMap uidOf).Nodup := by
  unfold expiredEntriesOf
  rw [filterMap_uid_map_snd _ (fun p hp =>
    markedDict_kv now cd hd hkv p (List.mem_filter.mp hp).1)]
  have hsub : List.Sublist
      (((markedDictOf now cd hd).filter (isKeptExpired cd)).map Prod.fst)
      ((markedDictOf now cd hd).map Prod.fst) :=
    List.Sublist.map Prod.fst (List.filter_sublist _)
  rw [markedDict_fst] at hsub
  exact List.Nodup.sublist hsub hkeys

/-- Under a duplicate-free batch the uid list of the post-reconciliation
history is duplicate-free: the kept part carries exactly the batch's uids,
the expired part carries history-dict keys absent from the batch. -/
theorem nodupUids_result (now : String) (batch history : List Draft)
    (hb : (batch.filterMap uidOf).Nodup) :
    (((compare_and_update_smart now batch history).updated_history).filterMap uidOf).Nodup := by
  rw [cas_updated_history]
  unfold updatedHistoryOf
  have hperm := (sortByDateDesc_perm
    (batch.map (updatedVersion (updatedItemsOf now (buildDict batch) (buildDict history)))
      ++ expiredEntriesOf now (buildDict batch) (buildDict history))).filterMap uidOf
  rw [hperm.nodup_iff]
  rw [List.filterMap_append]
  have hkept : (batch.map
      (updatedVersion (updatedItemsOf now (buildDict batch) (buildDict history)))).filterMap
        uidOf = batch.filterMap uidOf :=
    filterMap_uidOf_map batch _ (fun d => updatedVersion_unique_id _ d)
  rw [hkept]
  have hkv : ∀ p ∈ buildDict history, uidOf p.2 = some p.1 :=
    fun p hp => (buildDict_mem history p hp).1
  have hend := expiredEntries_uid_nodup now (buildDict batch) (buildDict history)
    (buildDict_keysNodup history) hkv
  rw [List.nodup_append]
  refine ⟨hb, hend, ?_⟩
  intro u hu hue
  rcases List.mem_filterMap.mp hue with ⟨e, he, hue2⟩
  rcases expiredEntries_uid now (buildDict batch) (buildDict history) e he hkv
    with ⟨u', hu1, hu2, _⟩
  rw [hue2] at hu1
  have heq : u = u' := Option.some.inj hu1
  rw [← heq] at hu2
  apply hu2
  rcases List.mem_filterMap.mp hu with ⟨r, hr, hur⟩
  rw [hasKey_iff]
  exact (mem_dictKeys_buildDict batch u).mpr ⟨r, hr, hur⟩

/-- C2 (amended): after a reconciliation pass over a batch whose (truthy)
identifiers are pairwise distinct, identifiers are unique in the saved
history — matching entries are replaced in place by identifier, absent ones
retained once.  When the input batch itself carries two records with the same
identifier, however, both copies are written to the saved history (see the
counterexample), so the distinct-batch proviso is necessary. -/
theorem C2_uid_uniqueness_amended (now : String) (batch history : List Draft)
    (hb : (batch.filterMap uidOf).Nodup) :
    (((compare_and_update_smart now batch history).updated_history).filterMap uidOf).Nodup :=
  nodupUids_result now batch history hb

/-- C2 witness: a concrete pass (batch `x1`, history `y1`) whose saved
history has duplicate-free identifiers. -/
theorem C2_witness :
    (((compare_and_update_smart ("t1") [c2wB] [c2wH]).updated_history).filterMap uidOf).Nodup :=
  C2_uid_uniqueness_amended ("t1") [c2wB] [c2wH] (by decide)

/-- C2 counterexample: a batch containing two records with the same
identifier `"u"` produces a saved history whose identifier list `["u", "u"]`
has a duplicate — an entry is duplicated, refuting uniqueness for arbitrary
batches. -/
theorem C2_counterexample :
    ¬ (((compare_and_update_smart ("t1") [c2a, c2b] []).updated_history).filterMap
        uidOf).Nodup := by
  decide

/-!
### Claim C9 — bounded retention
-/

/-- C9 (amended): the smart-scraper history count never decreases except by
the trim to 1000; when new items were appended and the total exceeds 1000,
the kept entries are exactly a suffix of `history ++ new_items` in **list
position** (new items appended at the end; earliest-positioned entries
discarded first); with no new items the list — even an oversized one — is
returned untouched. -/
theorem C9_retention_amended (new_rulings history : List SRec) :
    ((compare_and_update new_rulings history).new_items = [] →
      (compare_and_update new_rulings history).history = history) ∧
    ((compare_and_update new_rulings history).history.length ≥ history.length ∨
      ((compare_and_update new_rulings history).history.length = 1000 ∧
        history.length + (compare_and_update new_rulings history).new_items.length > 1000)) ∧
    ((compare_and_update new_rulings history).new_items ≠ [] →
      ∃ dropped,
        dropped ++ (compare_and_update new_rulings history).history
          = history ++ (compare_and_update new_rulings history).new_items ∧
        (dropped = [] ∨ (compare_and_update new_rulings history).history.length = 1000)) := by
  by_cases hne : new_rulings.filter (smartNewPred (historyIds history)) = []
  · have hres : compare_and_update new_rulings history
        = { new_items := [], history := history } := by
      unfold compare_and_update
      rw [hne]
      simp
    rw [hres]
    exact ⟨fun _ => rfl, Or.inl (Nat.le_refl _), fun h => absurd rfl h⟩
  · by_cases hlen :
        (history ++ new_rulings.filter (smartNewPred (historyIds history))).length > 1000
    · have hres : compare_and_update new_rulings history
          = { new_items := new_rulings.filter (smartNewPred (historyIds history)),
              history := (history ++ new_rulings.filter (smartNewPred (historyIds history))).drop
                ((history ++ new_rulings.filter (smartNewPred (historyIds history))).length
                  - 1000) } := by
        unfold compare_and_update
        rw [if_pos hne]
        have hlen2 : history.length
            + (List.filter (smartNewPred (historyIds history)) new_rulings).length > 1000 := by
          simpa using hlen
        simp [hlen2]
      rw [hres]
      simp only [List.length_append] at hlen
      refine ⟨fun h => absurd h hne, Or.inr ⟨?_, ?_⟩, fun _ => ?_⟩
      · simp only [List.length_drop, List.length_append]
        omega
      · simpa using hlen
      · refine ⟨(history ++ new_rulings.filter (smartNewPred (historyIds history))).take
          ((history ++ new_rulings.filter (smartNewPred (historyIds history))).length - 1000),
          List.take_append_drop _ _, Or.inr ?_⟩
        simp only [List.length_drop, List.length_append]
        omega
    · have hres : compare_and_update new_rulings history
          = { new_items := new_rulings.filter (smartNewPred (historyIds history)),
              history := history ++ new_rulings.filter (smartNewPred (historyIds history)) } := by
        unfold compare_and_update
        rw [if_pos hne]
        have hlen2 : ¬(history.length
            + (List.filter (smartNewPred (historyIds history)) new_rulings).length > 1000) := by
          simpa using hlen
        simp [hlen2]
      rw [hres]
      refine ⟨fun h => absurd h hne, Or.inl ?_, fun _ => ⟨[], rfl, Or.inl rfl⟩⟩
      simp

/-- C9 witness: the suffix clause of the amended theorem at a concrete pass
with one genuinely new ruling. -/
theorem C9_witness :
    ∃ dropped,
      dropped ++ (compare_and_update [c9new] [c9oldR]).history
        = [c9oldR] ++ (compare_and_update [c9new] [c9oldR]).new_items ∧
      (dropped = [] ∨ (compare_and_update [c9new] [c9oldR]).history.length = 1000) :=
  (C9_retention_amended [c9new] [c9oldR]).2.2 (by decide)

/-- C9 counterexample: the claim's "only the most recently touched entries
(ordered by first_seen/last_updated) are retained" is false — the trim keeps
the last 1000 **list positions**: with a 1001-entry history whose *head* is
the most recently scraped entry, adding one fresh ruling discards that most
recent entry while 999 much older entries survive.  And with an oversized
(1001-entry) history but no new items, no trimming happens at all even
though the ceiling is exceeded. -/
theorem C9_counterexample :
    (compare_and_update [c9new] c9hist).history = List.replicate 999 c9oldR ++ [c9new] ∧
    c9latest ∉ (compare_and_update [c9new] c9hist).history ∧
    c9oldR ∈ (compare_and_update [c9new] c9hist).history ∧
    pyLe (c9oldR.scrape_time.getD ("")) (c9latest.scrape_time.getD ("")) = true ∧
    c9oldR.scrape_time.getD ("") ≠ c9latest.scrape_time.getD ("") ∧
    (compare_and_update [c9dup] c9hist2).history.length = 1001 ∧
    (compare_and_update [c9dup] c9hist2).new_items = [] := by
  exact ⟨by decide, by decide, by decide, by decide, by decide, by decide, by decide⟩

/-!
### Claim C4 — expiry marking and retention of absent entries
-/

/-- Any history entry whose (unique, truthy) identifier is absent from the
batch is retained by the pass: an active one as its expired version, an
already-expired one unchanged. -/
theorem expired_retained (now : String) (batch history : List Draft) (h : Draft) (u : String)
    (hmem : h ∈ history) (huid : uidOf h = some u)
    (hnd : (history.filterMap uidOf).Nodup)
    (habs : u ∉ batch.filterMap uidOf)
    (hst : h.status = some ("active") ∨ h.status = some ("expired")) :
    (if h.status = some ("active") then expireRec now h else h)
      ∈ (compare_and_update_smart now batch history).updated_history := by
  rw [cas_updated_history]
  unfold updatedHistoryOf
  rw [(sortByDateDesc_perm _).mem_iff]
  refine List.mem_append.mpr (Or.inr ?_)
  unfold expiredEntriesOf
  have hpair : (u, h) ∈ buildDict history := mem_buildDict_of_nodup history h u hnd hmem huid
  have hnk : ¬hasKey (buildDict batch) u = true := by
    intro hk
    rcases (mem_dictKeys_buildDict batch u).mp ((hasKey_iff _ _).mp hk) with ⟨r, hr, hur⟩
    exact habs (List.mem_filterMap.mpr ⟨r, hr, hur⟩)
  have hnotkey : hasKey (buildDict batch) u = false := by
    cases hkb : hasKey (buildDict batch) u
    · rfl
    · exact absurd hkb hnk
  rcases hst with hact | hexp
  · rw [if_pos hact]
    have hin : isNewlyExpired (buildDict batch) (u, h) = true := by
      unfold isNewlyExpired
      simp [hnotkey, hact]
    have hmark : (u, expireRec now h)
        ∈ markedDictOf now (buildDict batch) (buildDict history) := by
      unfold markedDictOf
      refine List.mem_map.mpr ⟨(u, h), hpair, ?_⟩
      rw [if_pos hin]
    have hkeep : isKeptExpired (buildDict batch) (u, expireRec now h) = true := by
      unfold isKeptExpired expireRec
      simp [hnotkey]
    exact List.mem_map.mpr ⟨(u, expireRec now h), List.mem_filter.mpr ⟨hmark, hkeep⟩, rfl⟩
  · have hne : ¬(h.status = some ("active")) := by
      rw [hexp]
      simp
    rw [if_neg hne]
    have hnotnew : isNewlyExpired (buildDict batch) (u, h) = false := by
      unfold isNewlyExpired
      simp [hexp]
    have hmark : (u, h) ∈ markedDictOf now (buildDict batch) (buildDict history) := by
      unfold markedDictOf
      refine List.mem_map.mpr ⟨(u, h), hpair, ?_⟩
      rw [if_neg (by simp [hnotnew])]
    have hkeep : isKeptExpired (buildDict batch) (u, h) = true := by
      unfold isKeptExpired
      simp [hnotkey, hexp]
    exact List.mem_map.mpr ⟨(u, h), List.mem_filter.mpr ⟨hmark, hkeep⟩, rfl⟩

/-- C4 (amended): provided the history's truthy identifiers are pairwise
distinct, its entries' states are `active`/`expired`, and the batches carry
pairwise-distinct identifiers, then for every history entry whose identifier
is absent from the batch: an ACTIVE entry is turned into its EXPIRED version
with `expired_at = now` and kept in the saved history; an EXPIRED entry is
kept unchanged; and an entry absent from two consecutive batches is still
present, as EXPIRED, after the second pass.  (With duplicate identifiers in
the history, entries *are* silently dropped — see the counterexample — so
the distinctness provisos are necessary.) -/
theorem C4_expiry_retention_amended (now1 now2 : String)
    (batch1 batch2 history : List Draft) (h : Draft) (u : String)
    (hmem : h ∈ history) (huid : uidOf h = some u)
    (hnd : (history.filterMap uidOf).Nodup)
    (hb1 : (batch1.filterMap uidOf).Nodup)
    (habs1 : u ∉ batch1.filterMap uidOf)
    (habs2 : u ∉ batch2.filterMap uidOf)
    (hst : h.status = some ("active") ∨ h.status = some ("expired")) :
    (if h.status = some ("active") then expireRec now1 h else h)
        ∈ (compare_and_update_smart now1 batch1 history).updated_history ∧
    ((if h.status = some ("active") then expireRec now1 h else h)).status = some ("expired") ∧
    (h.status = some ("active") → (expireRec now1 h).expired_at = some now1) ∧
    (if h.status = some ("active") then expireRec now1 h else h)
        ∈ (compare_and_update_smart now2 batch2
            ((compare_and_update_smart now1 batch1 history).updated_history)).updated_history := by
  have hstat' : (if h.status = some ("active") then expireRec now1 h else h).status
      = some ("expired") := by
    rcases hst with ha | he
    · rw [if_pos ha]
      rfl
    · rw [if_neg (by rw [he]; simp)]
      exact he
  have h1 : (if h.status = some ("active") then expireRec now1 h else h)
      ∈ (compare_and_update_smart now1 batch1 history).updated_history :=
    expired_retained now1 batch1 history h u hmem huid hnd habs1 hst
  have huid' : uidOf (if h.status = some ("active") then expireRec now1 h else h) = some u := by
    rcases hst with ha | he
    · rw [if_pos ha]
      exact huid
    · rw [if_neg (by rw [he]; simp)]
      exact huid
  have hnd1 : (((compare_and_update_smart now1 batch1 history).updated_history).filterMap
      uidOf).Nodup := nodupUids_result now1 batch1 history hb1
  have h2 := expired_retained now2 batch2
    ((compare_and_update_smart now1 batch1 history).updated_history)
    (if h.status = some ("active") then expireRec now1 h else h) u h1 huid' hnd1 habs2
    (Or.inr hstat')
  rw [if_neg (by rw [hstat']; simp)] at h2
  exact ⟨h1, hstat', fun _ => rfl, h2⟩

/-- C4 witness: history `[c4act (active, id h1), c4exp (expired, id h2)]`,
first batch a single unrelated new record, second batch empty: the active
entry absent from both batches ends up expired with `expired_at = t1` and is
still present after the second pass. -/
theorem C4_witness :
    (if c4act.status = some ("active") then expireRec ("t1") c4act else c4act)
        ∈ (compare_and_update_smart ("t1") [c4new] [c4act, c4exp]).updated_history ∧
    ((if c4act.status = some ("active") then expireRec ("t1") c4act else c4act)).status
        = some ("expired") ∧
    (c4act.status = some ("active") → (expireRec ("t1") c4act).expired_at = some ("t1")) ∧
    (if c4act.status = some ("active") then expireRec ("t1") c4act else c4act)
        ∈ (compare_and_update_smart ("t2") []
            ((compare_and_update_smart ("t1") [c4new]
              [c4act, c4exp]).updated_history)).updated_history :=
  C4_expiry_retention_amended ("t1") ("t2") [c4new] [] [c4act, c4exp] c4act ("h1")
    (by decide) (by decide) (by decide) (by decide) (by decide) (by decide) (by decide)

/-- C4 counterexample: with two ACTIVE history entries sharing the identifier
`"u"` and an empty batch, the saved history contains only the expired version
of the *last* entry: the first entry is silently dropped — neither it nor its
expired version survives — refuting "no history entry absent from the batch
is ever silently dropped" for arbitrary (duplicate-id) histories. -/
theorem C4_counterexample :
    (compare_and_update_smart ("t1") [] [c4dupA, c4dupB]).updated_history
        = [expireRec ("t1") c4dupB] ∧
    c4dupA ∉ (compare_and_update_smart ("t1") [] [c4dupA, c4dupB]).updated_history ∧
    expireRec ("t1") c4dupA
        ∉ (compare_and_update_smart ("t1") [] [c4dupA, c4dupB]).updated_history := by
  exact ⟨by decide, by decide, by decide⟩

/-!
### Claim C3 — field-by-field comparison of matched records
-/

/-- C3: for an identifier present in both batch and history, the reconciler
compares exactly title, end_date and date (the announcement date); when any
differs, the record is classified UPDATED: `updated_items` holds the batch
record with `last_updated = now` and `changes` listing exactly the differing
fields' labels (標題 = title, 終止日期 = end_date, 公告日期 =
announcement_date) in the code's order, the history entry is replaced by that
updated record (overwriting the compared fields with the batch's values), and
the identifier is unchanged. -/
theorem C3_field_comparison (now : String) (b h : Draft) (u : String)
    (hb : uidOf b = some u) (hh : uidOf h = some u)
    (hdiff : b.title ≠ h.title ∨ b.end_date ≠ h.end_date ∨ b.date ≠ h.date) :
    (compare_and_update_smart now [b] [h]).new_items = [] ∧
    (compare_and_update_smart now [b] [h]).updated_items
        = [applyUpdate now (drawChanges b h) b] ∧
    (compare_and_update_smart now [b] [h]).updated_history
        = [applyUpdate now (drawChanges b h) b] ∧
    drawChanges b h
        = (if b.title = h.title then [] else ["標題"])
          ++ (if b.end_date = h.end_date then [] else ["終止日期"])
          ++ (if b.date = h.date then [] else ["公告日期"]) ∧
    uidOf (applyUpdate now (drawChanges b h) b) = some u ∧
    (applyUpdate now (drawChanges b h) b).title = b.title ∧
    (applyUpdate now (drawChanges b h) b).end_date = b.end_date ∧
    (applyUpdate now (drawChanges b h) b).date = b.date ∧
    (applyUpdate now (drawChanges b h) b).last_updated = some now ∧
    (compare_and_update_smart now [b] [h]).stats.updated_count = 1 := by
  have hcd : buildDict [b] = [(u, b)] := by simp [buildDict, hb, dictInsert]
  have hhd : buildDict [h] = [(u, h)] := by simp [buildDict, hh, dictInsert]
  have hch : drawChanges b h ≠ [] := by
    intro hc
    rcases hdiff with hd | hd | hd <;> simp [drawChanges, hd] at hc
  have hupd : updatedItemsOf now (buildDict [b]) (buildDict [h])
      = [applyUpdate now (drawChanges b h) b] := by
    rw [hcd, hhd]
    simp [updatedItemsOf, dictLookup, hch]
  have hnew : (compare_and_update_smart now [b] [h]).new_items = [] := by
    rw [cas_new_items, hcd, hhd]
    simp [newItemsOf, hasKey]
  have hexp : expiredEntriesOf now (buildDict [b]) (buildDict [h]) = [] := by
    rw [hcd, hhd]
    simp [expiredEntriesOf, markedDictOf, isNewlyExpired, isKeptExpired, hasKey]
  have hhist : (compare_and_update_smart now [b] [h]).updated_history
      = [applyUpdate now (drawChanges b h) b] := by
    rw [cas_updated_history]
    unfold updatedHistoryOf
    rw [hupd, hexp]
    simp [updatedVersion, applyUpdate, sortByDateDesc, insertDesc]
  refine ⟨hnew, ?_, hhist, ?_, ?_, rfl, rfl, rfl, rfl, ?_⟩
  · rw [cas_updated_items]
    exact hupd
  · by_cases h1 : b.title = h.title <;> by_cases h2 : b.end_date = h.end_date <;>
      by_cases h3 : b.date = h.date <;> simp [drawChanges, h1, h2, h3]
  · show uidOf (applyUpdate now (drawChanges b h) b) = some u
    exact hb
  · show (updatedItemsOf now (buildDict [b]) (buildDict [h])).length = 1
    rw [hupd]
    rfl

/-- C3 witness: the spec's scenario — history entry id `a1`, title `T1`,
announcement date `2025-01-01`; batch record with the same id (same canonical
URL), same title, date `2025-01-02`: classified UPDATED with
`changes = ["公告日期"]` (the code's label for announcement_date), the date
overwritten to `2025-01-02`, identifier unchanged, nothing NEW. -/
theorem C3_witness :
    (compare_and_update_smart ("t9") [c3batch] [c3hist]).updated_items
        = [applyUpdate ("t9") (["公告日期"]) c3batch] ∧
    (applyUpdate ("t9") (["公告日期"]) c3batch).date = some ("2025-01-02") ∧
    uidOf (applyUpdate ("t9") (["公告日期"]) c3batch) = some ("a1") ∧
    (applyUpdate ("t9") (["公告日期"]) c3batch).last_updated = some ("t9") ∧
    (compare_and_update_smart ("t9") [c3batch] [c3hist]).new_items = [] := by
  have hc := C3_field_comparison ("t9") c3batch c3hist ("a1") (by decide) (by decide)
    (by right; right; decide)
  refine ⟨?_, by decide, by decide, by decide, hc.1⟩
  have h2 := hc.2.1
  have hdc : drawChanges c3batch c3hist = ["公告日期"] := by decide
  rw [hdc] at h2
  exact h2

/-!
### Claim C1 — idempotence of the reconciliation pass
-/

/-- A `truthy` result reproduces itself: the underlying option held exactly
that (non-empty) string, and `truthy` is idempotent on it. -/
theorem truthy_idem (o : Option String) (u : String) (h : truthy o = some u) :
    o = some u ∧ truthy (some u) = some u := by
  cases o with
  | none => simp [truthy] at h
  | some s =>
    simp only [truthy] at h ⊢
    by_cases hs : s = ""
    · rw [if_pos hs] at h
      exact absurd h (by simp)
    · rw [if_neg hs] at h
      have he : s = u := Option.some.inj h
      subst he
      exact ⟨rfl, by rw [if_neg hs]⟩

theorem uidOf_updatedVersion (ui : List Draft) (d : Draft) :
    uidOf (updatedVersion ui d) = uidOf d := by
  unfold uidOf
  rw [updatedVersion_unique_id]

/-- Every output of step 2 is some batch-dict record with `last_updated` and
`changes` stamped on. -/
theorem updatedItemsOf_mem (now : String) (cd hd : List (String × Draft)) (x : Draft)
    (hx : x ∈ updatedItemsOf now cd hd) :
    ∃ p ∈ cd, ∃ ch, x = applyUpdate now ch p.2 := by
  unfold updatedItemsOf at hx
  rcases List.mem_filterMap.mp hx with ⟨p, hp, hfx⟩
  cases hl : dictLookup hd p.1 with
  | none =>
    simp [hl] at hfx
  | some historical =>
    simp only [hl] at hfx
    split at hfx
    · exact ⟨p, hp, drawChanges p.2 historical, (Option.some.inj hfx).symm⟩
    · simp at hfx

/-- Under a duplicate-free batch, the record step 4a keeps for a batch draft
agrees with the draft on the three compared fields and on `status`
(`applyUpdate` touches only `last_updated` and `changes`). -/
theorem updatedVersion_fields (now : String) (batch history : List Draft)
    (hb : (batch.filterMap uidOf).Nodup) (b0 : Draft) (hb0 : b0 ∈ batch) :
    (updatedVersion (updatedItemsOf now (buildDict batch) (buildDict history)) b0).title
        = b0.title
    ∧ (updatedVersion (updatedItemsOf now (buildDict batch) (buildDict history)) b0).end_date
        = b0.end_date
    ∧ (updatedVersion (updatedItemsOf now (buildDict batch) (buildDict history)) b0).date
        = b0.date
    ∧ (updatedVersion (updatedItemsOf now (buildDict batch) (buildDict history)) b0).status
        = b0.status := by
  unfold updatedVersion
  cases hf : (updatedItemsOf now (buildDict batch) (buildDict history)).find?
      (fun item => item.unique_id == b0.unique_id) with
  | none => exact ⟨rfl, rfl, rfl, rfl⟩
  | some x =>
    have hxmem : x ∈ updatedItemsOf now (buildDict batch) (buildDict history) :=
      List.mem_of_find?_eq_some hf
    have hxid : x.unique_id = b0.unique_id := by
      have := List.find?_some hf
      simpa [beq_iff_eq] using this
    rcases updatedItemsOf_mem now _ _ x hxmem with ⟨p, hp, ch, hxe⟩
    rcases buildDict_mem batch p hp with ⟨hpu, hpmem⟩
    have hpid : p.2.unique_id = some p.1 := (truthy_idem _ _ hpu).1
    have hb0u : uidOf b0 = some p.1 := by
      have hbid : b0.unique_id = some p.1 := by
        rw [← hxid, hxe]
        exact hpid
      unfold uidOf
      rw [hbid]
      exact (truthy_idem _ _ hpu).2
    have hpb : b0 = p.2 := uid_inj_of_nodup batch hb b0 p.2 p.1 hb0 hpmem hb0u hpu
    rw [hxe, ← hpb]
    exact ⟨rfl, rfl, rfl, rfl⟩

/-- Every entry of the retained-expired part carries `status = 'expired'`. -/
theorem expiredEntries_status (now : String) (cd hd : List (String × Draft)) (e : Draft)
    (he : e ∈ expiredEntriesOf now cd hd) : e.status = some ("expired") := by
  unfold expiredEntriesOf at he
  rcases List.mem_map.mp he with ⟨q, hq, rfl⟩
  have h2 := (List.mem_filter.mp hq).2
  unfold isKeptExpired at h2
  simp only [Bool.and_eq_true, beq_iff_eq] at h2
  exact h2.2

/-- The saved history is, up to the final date sort, the kept batch versions
followed by the retained expired entries. -/
theorem updated_history_perm (now : String) (batch history : List Draft) :
    List.Perm ((compare_and_update_smart now batch history).updated_history)
      (batch.map (updatedVersion (updatedItemsOf now (buildDict batch) (buildDict history)))
        ++ expiredEntriesOf now (buildDict batch) (buildDict history)) := by
  rw [cas_updated_history]
  unfold updatedHistoryOf
  exact sortByDateDesc_perm _

/-- `dictLookup` success implies key presence. -/
theorem hasKey_of_dictLookup (d : List (String × Draft)) (k : String) (v : Draft)
    (h : dictLookup d k = some v) : hasKey d k = true := by
  unfold dictLookup at h
  cases hf : d.find? (fun p => p.1 == k) with
  | none =>
    rw [hf] at h
    simp at h
  | some q =>
    have hq1 : (q.1 == k) = true := by
      have := List.find?_some hf
      simpa using this
    unfold hasKey
    exact List.any_eq_true.mpr ⟨q, List.mem_of_find?_eq_some hf, hq1⟩

/-- In the second pass's history dict, every batch-dict key resolves to the
version step 4a kept for it in the first pass. -/
theorem pass2_lookup (now1 : String) (batch history : List Draft)
    (hb : (batch.filterMap uidOf).Nodup) (p : String × Draft)
    (hp : p ∈ buildDict batch) :
    dictLookup (buildDict ((compare_and_update_smart now1 batch history).updated_history)) p.1
      = some (updatedVersion
          (updatedItemsOf now1 (buildDict batch) (buildDict history)) p.2) := by
  rcases buildDict_mem batch p hp with ⟨hpu, hpmem⟩
  have hm : updatedVersion (updatedItemsOf now1 (buildDict batch) (buildDict history)) p.2
      ∈ (compare_and_update_smart now1 batch history).updated_history := by
    rw [(updated_history_perm now1 batch history).mem_iff]
    exact List.mem_append.mpr (Or.inl (List.mem_map.mpr ⟨p.2, hpmem, rfl⟩))
  have humem : uidOf (updatedVersion
      (updatedItemsOf now1 (buildDict batch) (buildDict history)) p.2) = some p.1 := by
    rw [uidOf_updatedVersion]
    exact hpu
  exact dictLookup_eq_some _ _ _ (buildDict_keysNodup _)
    (mem_buildDict_of_nodup _ _ _ (nodupUids_result now1 batch history hb) hm humem)

/-- Second pass of the reconciler on its own output: no record is NEW. -/
theorem pass2_new_items_nil (now1 now2 : String) (batch history : List Draft)
    (hb : (batch.filterMap uidOf).Nodup) :
    (compare_and_update_smart now2 batch
        ((compare_and_update_smart now1 batch history).updated_history)).new_items = [] := by
  rw [cas_new_items]
  unfold newItemsOf
  have hfil : (buildDict batch).filter
      (fun p => !hasKey (buildDict
        ((compare_and_update_smart now1 batch history).updated_history)) p.1) = [] := by
    rw [List.filter_eq_nil_iff]
    intro p hp
    have hk := hasKey_of_dictLookup _ _ _ (pass2_lookup now1 batch history hb p hp)
    simp [hk]
  rw [hfil]
  rfl

/-- Second pass of the reconciler on its own output: no record is UPDATED
(the kept versions agree with the batch on all three compared fields). -/
theorem pass2_updated_items_nil (now1 now2 : String) (batch history : List Draft)
    (hb : (batch.filterMap uidOf).Nodup) :
    (compare_and_update_smart now2 batch
        ((compare_and_update_smart now1 batch history).updated_history)).updated_items = [] := by
  rw [cas_updated_items]
  unfold updatedItemsOf
  rw [List.filterMap_eq_nil_iff]
  intro p hp
  have hdc : drawChanges p.2
      (updatedVersion (updatedItemsOf now1 (buildDict batch) (buildDict history)) p.2) = [] := by
    rcases buildDict_mem batch p hp with ⟨hpu, hpmem⟩
    have hf := updatedVersion_fields now1 batch history hb p.2 hpmem
    unfold drawChanges
    rw [hf.1, hf.2.1, hf.2.2.1]
    simp
  simp only [pass2_lookup now1 batch history hb p hp, hdc]
  simp

/-- Second pass of the reconciler on its own output: the expired portion of
the saved history is, as a multiset, exactly that of the first pass (the
second pass expires nothing new and re-keeps every expired entry), provided
the batch carries duplicate-free identifiers and only active records. -/
theorem pass2_expired_perm (now1 now2 : String) (batch history : List Draft)
    (hb : (batch.filterMap uidOf).Nodup)
    (ha : ∀ b ∈ batch, b.status = some ("active")) :
    List.Perm
      ((compare_and_update_smart now2 batch
          ((compare_and_update_smart now1 batch history).updated_history)).updated_history.filter
        isExpired)
      (((compare_and_update_smart now1 batch history).updated_history).filter isExpired) := by
  have hperm1 : List.Perm ((compare_and_update_smart now1 batch history).updated_history)
      (batch.map (updatedVersion (updatedItemsOf now1 (buildDict batch) (buildDict history)))
        ++ expiredEntriesOf now1 (buildDict batch) (buildDict history)) :=
    updated_history_perm now1 batch history
  have hnd1 : (((compare_and_update_smart now1 batch history).updated_history).filterMap
      uidOf).Nodup := nodupUids_result now1 batch history hb
  have hM1status : ∀ b0 ∈ batch,
      (updatedVersion (updatedItemsOf now1 (buildDict batch) (buildDict history)) b0).status
        = some ("active") := by
    intro b0 hb0
    rw [(updatedVersion_fields now1 batch history hb b0 hb0).2.2.2]
    exact ha b0 hb0
  have hM1key : ∀ b0 ∈ batch, ∀ u,
      uidOf (updatedVersion (updatedItemsOf now1 (buildDict batch) (buildDict history)) b0)
        = some u → hasKey (buildDict batch) u = true := by
    intro b0 hb0 u hu
    rw [uidOf_updatedVersion] at hu
    rw [hasKey_iff]
    exact (mem_dictKeys_buildDict batch u).mpr ⟨b0, hb0, hu⟩
  have hmark2 : markedDictOf now2 (buildDict batch)
      (buildDict ((compare_and_update_smart now1 batch history).updated_history))
      = buildDict ((compare_and_update_smart now1 batch history).updated_history) := by
    unfold markedDictOf
    refine (List.map_congr_left ?_).trans (List.map_id _)
    intro p hp
    have hfalse : isNewlyExpired (buildDict batch) p = false := by
      rcases buildDict_mem _ p hp with ⟨hpu, hpmem⟩
      rw [hperm1.mem_iff] at hpmem
      rcases List.mem_append.mp hpmem with hm | he
      · rcases List.mem_map.mp hm with ⟨b0, hb0, hbe⟩
        have hk : hasKey (buildDict batch) p.1 = true := by
          refine hM1key b0 hb0 p.1 ?_
          rw [hbe]
          exact hpu
        unfold isNewlyExpired
        rw [hk]
        rfl
      · have hs : p.2.status = some ("expired") :=
          expiredEntries_status now1 (buildDict batch) (buildDict history) p.2 he
        unfold isNewlyExpired
        rw [hs]
        simp
    rw [hfalse]
    simp
  have hE2g : expiredEntriesOf now2 (buildDict batch)
        (buildDict ((compare_and_update_smart now1 batch history).updated_history))
      = ((compare_and_update_smart now1 batch history).updated_history).filterMap
          (fun r => match uidOf r with
            | some u => if isKeptExpired (buildDict batch) (u, r) then some r else none
            | none => none) := by
    unfold expiredEntriesOf
    rw [hmark2, buildDict_eq_of_nodup _ hnd1, List.filter_filterMap, List.map_filterMap]
    refine List.filterMap_congr ?_
    intro r _
    cases uidOf r with
    | none => rfl
    | some u =>
      by_cases hk : isKeptExpired (buildDict batch) (u, r) = true
      · simp [Option.filter, hk]
      · simp [Option.filter, hk]
  have hMg : (batch.map (updatedVersion
        (updatedItemsOf now1 (buildDict batch) (buildDict history)))).filterMap
      (fun r => match uidOf r with
        | some u => if isKeptExpired (buildDict batch) (u, r) then some r else none
        | none => none) = [] := by
    rw [List.filterMap_eq_nil_iff]
    intro m hm
    rcases List.mem_map.mp hm with ⟨b0, hb0, rfl⟩
    cases hu : uidOf (updatedVersion
        (updatedItemsOf now1 (buildDict batch) (buildDict history)) b0) with
    | none => simp [hu]
    | some u =>
      have hk : hasKey (buildDict batch) u = true := hM1key b0 hb0 u hu
      have hke : isKeptExpired (buildDict batch)
          (u, updatedVersion (updatedItemsOf now1 (buildDict batch) (buildDict history)) b0)
            = false := by
        simp [isKeptExpired, hk]
      simp [hu, hke]
  have hEg : (expiredEntriesOf now1 (buildDict batch) (buildDict history)).filterMap
      (fun r => match uidOf r with
        | some u => if isKeptExpired (buildDict batch) (u, r) then some r else none
        | none => none)
      = expiredEntriesOf now1 (buildDict batch) (buildDict history) := by
    have hall : ∀ e ∈ expiredEntriesOf now1 (buildDict batch) (buildDict history),
        (fun r => match uidOf r with
          | some u => if isKeptExpired (buildDict batch) (u, r) then some r else none
          | none => none) e = some e := by
      intro e he
      rcases expiredEntries_uid now1 (buildDict batch) (buildDict history) e he
          (fun p hp => (buildDict_mem history p hp).1) with ⟨u, hu1, hu2, _⟩
      have hs := expiredEntries_status now1 (buildDict batch) (buildDict history) e he
      have hkf : hasKey (buildDict batch) u = false := by
        cases hkb : hasKey (buildDict batch) u
        · rfl
        · exact absurd hkb hu2
      have hke : isKeptExpired (buildDict batch) (u, e) = true := by
        simp [isKeptExpired, hkf, hs]
      simp [hu1, hke]
    rw [List.filterMap_congr hall, List.filterMap_some]
  have hE2E1 : List.Perm
      (expiredEntriesOf now2 (buildDict batch)
        (buildDict ((compare_and_update_smart now1 batch history).updated_history)))
      (expiredEntriesOf now1 (buildDict batch) (buildDict history)) := by
    rw [hE2g]
    have h1 := hperm1.filterMap (fun r => match uidOf r with
      | some u => if isKeptExpired (buildDict batch) (u, r) then some r else none
      | none => none)
    rw [List.filterMap_append, hMg, hEg, List.nil_append] at h1
    exact h1
  have hupd2 : updatedItemsOf now2 (buildDict batch)
      (buildDict ((compare_and_update_smart now1 batch history).updated_history)) = [] := by
    have h0 := pass2_updated_items_nil now1 now2 batch history hb
    rw [cas_updated_items] at h0
    exact h0
  have hM2 : batch.map (updatedVersion (updatedItemsOf now2 (buildDict batch)
      (buildDict ((compare_and_update_smart now1 batch history).updated_history)))) = batch := by
    rw [hupd2]
    refine (List.map_congr_left ?_).trans (List.map_id _)
    intro b0 _
    rfl
  have hperm2 : List.Perm
      ((compare_and_update_smart now2 batch
        ((compare_and_update_smart now1 batch history).updated_history)).updated_history)
      (batch ++ expiredEntriesOf now2 (buildDict batch)
        (buildDict ((compare_and_update_smart now1 batch history).updated_history))) := by
    have h0 := updated_history_perm now2 batch
      ((compare_and_update_smart now1 batch history).updated_history)
    rw [hM2] at h0
    exact h0
  have hfb : batch.filter isExpired = [] := by
    rw [List.filter_eq_nil_iff]
    intro b0 hb0
    simp [isExpired, ha b0 hb0]
  have hE2full : (expiredEntriesOf now2 (buildDict batch)
      (buildDict ((compare_and_update_smart now1 batch history).updated_history))).filter
        isExpired
      = expiredEntriesOf now2 (buildDict batch)
        (buildDict ((compare_and_update_smart now1 batch history).updated_history)) := by
    rw [List.filter_eq_self]
    intro e he
    have hs := expiredEntries_status now2 (buildDict batch)
      (buildDict ((compare_and_update_smart now1 batch history).updated_history)) e he
    simp [isExpired, hs]
  have hE1full : (expiredEntriesOf now1 (buildDict batch) (buildDict history)).filter isExpired
      = expiredEntriesOf now1 (buildDict batch) (buildDict history) := by
    rw [List.filter_eq_self]
    intro e he
    simp [isExpired, expiredEntries_status now1 (buildDict batch) (buildDict history) e he]
  have hM1f : (batch.map (updatedVersion
      (updatedItemsOf now1 (buildDict batch) (buildDict history)))).filter isExpired = [] := by
    rw [List.filter_eq_nil_iff]
    intro m hm
    rcases List.mem_map.mp hm with ⟨b0, hb0, rfl⟩
    simp [isExpired, hM1status b0 hb0]
  refine ((hperm2.filter isExpired).trans ?_).trans ((hperm1.filter isExpired).symm)
  rw [List.filter_append, List.filter_append, hfb, hM1f, List.nil_append, List.nil_append,
    hE2full, hE1full]
  exact hE2E1

/-- Claim C1 (corrected): re-running `compare_and_update_smart` on the same
batch against its own output classifies zero records as NEW and zero as
UPDATED and leaves the expired portion of the history unchanged as a
multiset — provided the batch's truthy identifiers are pairwise distinct and
every batch record's status is `'active'`.  Without these provisos the claim
fails (see the counterexample): a duplicate-identifier batch yields an
UPDATED record on the second pass, a batch containing an expired-status
record changes the expired set between passes, and smart_scraper's
`compare_and_update` re-classifies a trimmed-away id as NEW. -/
theorem C1_idempotence_amended (now1 now2 : String) (batch history : List Draft)
    (hb : (batch.filterMap uidOf).Nodup)
    (ha : ∀ b ∈ batch, b.status = some ("active")) :
    (compare_and_update_smart now2 batch
        ((compare_and_update_smart now1 batch history).updated_history)).new_items = []
    ∧ (compare_and_update_smart now2 batch
        ((compare_and_update_smart now1 batch history).updated_history)).updated_items = []
    ∧ List.Perm
        ((compare_and_update_smart now2 batch
            ((compare_and_update_smart now1 batch history).updated_history)).updated_history.filter
          isExpired)
        (((compare_and_update_smart now1 batch history).updated_history).filter isExpired) :=
  ⟨pass2_new_items_nil now1 now2 batch history hb,
   pass2_updated_items_nil now1 now2 batch history hb,
   pass2_expired_perm now1 now2 batch history hb ha⟩

/-- Closed instance of the amended C1 theorem: a one-record active batch
reconciled twice. -/
theorem C1_witness :
    (compare_and_update_smart ("t2") [c1w]
        ((compare_and_update_smart ("t1") [c1w] []).updated_history)).new_items = []
    ∧ (compare_and_update_smart ("t2") [c1w]
        ((compare_and_update_smart ("t1") [c1w] []).updated_history)).updated_items = []
    ∧ List.Perm
        ((compare_and_update_smart ("t2") [c1w]
            ((compare_and_update_smart ("t1") [c1w] []).updated_history)).updated_history.filter
          isExpired)
        (((compare_and_update_smart ("t1") [c1w] []).updated_history).filter isExpired) :=
  C1_idempotence_amended ("t1") ("t2") [c1w] [] (by decide)
    (by
      intro b hbm
      rcases List.mem_singleton.mp hbm with rfl
      rfl)

/-- C1 counterexample, three ways the unconditional claim fails.
A batch with a duplicated identifier yields an UPDATED record on its second
pass (the history keeps both copies, the dicts keep one each, and their
dates differ).  A batch containing an expired-status record (nothing in the
function forbids one) changes the expired entries between passes: the first
pass stamps `changes` and `last_updated` on the record, the second pass
un-stamps them.  And in smart_scraper's `compare_and_update`, a full history
whose oldest list position holds id `"a"` trims that entry away when any new
ruling arrives, so the same batch re-run classifies id `"a"` as NEW again. -/
theorem C1_counterexample :
    ((compare_and_update_smart ("t2") [c1dupA, c1dupB]
        ((compare_and_update_smart ("t1")
          [c1dupA, c1dupB] []).updated_history)).stats.updated_count = 1)
    ∧ ¬ (([c1dupA, c1dupB].filterMap uidOf).Nodup)
    ∧ ¬ List.Perm
        ((compare_and_update_smart ("t2") [c1exB]
            ((compare_and_update_smart ("t1") [c1exB] [c1exH]).updated_history)).updated_history.filter
          isExpired)
        (((compare_and_update_smart ("t1") [c1exB] [c1exH]).updated_history).filter isExpired)
    ∧ (compare_and_update [c1reA, c1newB]
        ((compare_and_update [c1reA, c1newB] c1hist).history)).new_items = [c1reA] := by
  exact ⟨by decide, by decide, by decide, by decide⟩
